import Mathlib

/-
Verification of the nesting engine of `nesting_app.py` (`NestingAlgorithm.run`).

The engine is embedded shallowly: polygons are vertex lists over exact rationals
(the Python program computes with floats; the spec's geometry-kernel contract asks for
exact affine maps, and every quantity the engine manipulates — 3 cm scan steps, 0.5 cm
compaction steps, right-angle rotations — is exactly representable), shapely calls
(`rotate`, `scale`, `translate`, `bounds`, `area`, `centroid`, `intersects`) are
implemented over that representation, and the run loop, orientation loop, position scan,
gravity compaction, scoring and cancellation polling are transcribed from the source.
-/

set_option allowUnsafeReducibility true in
attribute [semireducible] Rat.add Rat.mul Rat.inv Rat.sub

namespace NestSys

/-- A planar point with exact rational coordinates. -/
abbrev Pt : Type := ℚ × ℚ

/-- A polygon, as the list of its exterior-ring vertices (without the repeated closing
vertex shapely stores). -/
abbrev Poly : Type := List Pt

/-- An axis-aligned bounding box: shapely's `bounds` tuple (minx, miny, maxx, maxy). -/
structure Rect where
  xmin : ℚ
  ymin : ℚ
  xmax : ℚ
  ymax : ℚ
deriving DecidableEq, Repr

/-- The vertex list rotated by one: each vertex's cyclic successor. -/
def cyc (p : Poly) : Poly := p.drop 1 ++ p.take 1

/-- The directed edges of the polygon's exterior ring. -/
def edges (p : Poly) : List (Pt × Pt) := p.zip (cyc p)

/-- Cross product of two points viewed as vectors from the origin. -/
def cross2 (a b : Pt) : ℚ := a.1 * b.2 - b.1 * a.2

/-- Twice the signed (shoelace) area of the polygon. -/
def shoelace (p : Poly) : ℚ := ((edges p).map (fun e => cross2 e.1 e.2)).sum

/-- shapely `Polygon.area`: absolute area. -/
def polyArea (p : Poly) : ℚ := |shoelace p| / 2

/-- shapely `Polygon.centroid` (the GEOS area-weighted centroid). For a zero-area
polygon the division is by zero and yields the junk value 0; the run never depends on the
centroid value (rotation about any point followed by the bounding-box normalisation gives
the same oriented polygon), so the totalisation is observationally irrelevant. -/
def centroid (p : Poly) : Pt :=
  let a := shoelace p
  (((edges p).map (fun e => (e.1.1 + e.2.1) * cross2 e.1 e.2)).sum / (3 * a),
   ((edges p).map (fun e => (e.1.2 + e.2.2) * cross2 e.1 e.2)).sum / (3 * a))

/-- Exact cosine at the four right angles the run uses (`variants` holds only
0, 90, 180 and 270 degrees). -/
def cosDeg (a : ℚ) : ℚ := if a = 90 then 0 else if a = 180 then -1 else if a = 270 then 0 else 1

/-- Exact sine at the four right angles the run uses. -/
def sinDeg (a : ℚ) : ℚ := if a = 90 then 1 else if a = 180 then 0 else if a = 270 then -1 else 0

/-- Rotation of one point about the centre `c`, with cosine `co` and sine `si`. -/
def rotAbout (c : Pt) (co si : ℚ) (q : Pt) : Pt :=
  (c.1 + co * (q.1 - c.1) - si * (q.2 - c.2), c.2 + si * (q.1 - c.1) + co * (q.2 - c.2))

/-- `affinity.rotate(poly, angle, origin="centroid")`. -/
def rotatePoly (ang : ℚ) (p : Poly) : Poly :=
  p.map (rotAbout (centroid p) (cosDeg ang) (sinDeg ang))

/-- `affinity.scale(poly, xfact=-1.0, origin="centroid")`: the horizontal mirror about
the vertical axis through the centroid. -/
def mirrorPoly (p : Poly) : Poly :=
  let c := centroid p
  p.map (fun q => (2 * c.1 - q.1, q.2))

/-- `affinity.translate(poly, xoff, yoff)`. -/
def translatePoly (dx dy : ℚ) (p : Poly) : Poly := p.map (fun q => (q.1 + dx, q.2 + dy))

/-- shapely `Polygon.bounds`; the empty polygon is mapped to the junk box 0 (it cannot
arise from the parser, which builds polygons from at least three points). -/
def boundsOf : Poly → Rect
  | [] => ⟨0, 0, 0, 0⟩
  | q :: qs =>
    qs.foldl (fun r t => ⟨min r.xmin t.1, min r.ymin t.2, max r.xmax t.1, max r.ymax t.2⟩)
      ⟨q.1, q.2, q.1, q.2⟩

/-- Orientation determinant of the ordered triple (p, q, r). -/
def orient3 (p q r : Pt) : ℚ := (q.1 - p.1) * (r.2 - p.2) - (q.2 - p.2) * (r.1 - p.1)

/-- Whether `r`, already known collinear with the segment pq, lies inside pq's box. -/
def onSeg (p q r : Pt) : Bool :=
  decide (min p.1 q.1 ≤ r.1 ∧ r.1 ≤ max p.1 q.1 ∧ min p.2 q.2 ≤ r.2 ∧ r.2 ≤ max p.2 q.2)

/-- Exact closed-segment intersection test: a proper straddling crossing, or a collinear
endpoint lying on the other segment. -/
def segsMeet (p q r s : Pt) : Bool :=
  let o1 := orient3 p q r
  let o2 := orient3 p q s
  let o3 := orient3 r s p
  let o4 := orient3 r s q
  (decide ((0 < o1 ∧ o2 < 0 ∨ o1 < 0 ∧ 0 < o2) ∧ (0 < o3 ∧ o4 < 0 ∨ o3 < 0 ∧ 0 < o4)))
  || (decide (o1 = 0) && onSeg p q r) || (decide (o2 = 0) && onSeg p q s)
  || (decide (o3 = 0) && onSeg r s p) || (decide (o4 = 0) && onSeg r s q)

/-- Even-odd ray-crossing test: whether `r` lies inside the simple polygon `p`. Exact for
points off the boundary; boundary contact is already caught by `segsMeet` inside
`polyIntersects`. -/
def ptInPoly (r : Pt) (p : Poly) : Bool :=
  (edges p).foldl (fun acc e =>
    if (decide (r.2 < e.1.2) != decide (r.2 < e.2.2)) &&
       decide (r.1 < e.1.1 + (e.2.1 - e.1.1) * (r.2 - e.1.2) / (e.2.2 - e.1.2))
    then !acc else acc) false

/-- shapely `a.intersects(b)` for simple polygons: the closed regions share a point iff
some pair of boundary edges meets, or one polygon's first vertex lies strictly inside the
other. -/
def polyIntersects (p q : Poly) : Bool :=
  (edges p).any (fun e => (edges q).any (fun f => segsMeet e.1 e.2 f.1 f.2))
  || (match p, q with
      | a :: _, b :: _ => ptInPoly a q || ptInPoly b p
      | _, _ => false)

/-- The bounding-box pre-check of the source:
`not (cb[2] <= pb[0] or cb[0] >= pb[2] or cb[3] <= pb[1] or cb[1] >= pb[3])`. -/
def bboxOverlap (cb pb : Rect) : Bool :=
  !(decide (cb.xmax ≤ pb.xmin) || decide (cb.xmin ≥ pb.xmax) ||
    decide (cb.ymax ≤ pb.ymin) || decide (cb.ymin ≥ pb.ymax))

/-- The spec's conflict relation between two (placed) polygons: bounding boxes overlap
AND the polygons intersect under the exact test. -/
def conflictB (a b : Poly) : Bool :=
  bboxOverlap (boundsOf a) (boundsOf b) && polyIntersects a b

/-- The conflict scan of the source: walk the accepted bounds (indexed in lockstep with
the accepted polygons), box pre-check first, exact intersection only when the boxes
overlap, stopping at the first conflict found. -/
def anyConflict (cp : Poly) (cb : Rect) (polys : List Poly) (bnds : List Rect) : Bool :=
  (bnds.zip polys).any (fun pr => bboxOverlap cb pr.1 && polyIntersects cp pr.2)

/-- One pass of the gravity-compaction loop body: attempt a 0.5 down-shift, then a 0.5
left-shift from wherever the first attempt left the candidate; the Boolean is the
source's `moved` flag for the pass. -/
def compactStep (polys : List Poly) (bnds : List Rect) (cp : Poly) : Poly × Bool :=
  let t1 := translatePoly 0 (-(1/2)) cp
  let b1 := boundsOf t1
  let r1 := if decide (0 ≤ b1.ymin) && !(anyConflict t1 b1 polys bnds) then (t1, true) else (cp, false)
  let t2 := translatePoly (-(1/2)) 0 r1.1
  let b2 := boundsOf t2
  if decide (0 ≤ b2.xmin) && !(anyConflict t2 b2 polys bnds) then (t2, true) else r1

/-- The compaction loop with explicit fuel: the source writes `while moved:`; the fuel
makes the recursion structural and kernel-computable. -/
def compactFuel (polys : List Poly) (bnds : List Rect) : Nat → Poly → Poly
  | 0, cp => cp
  | n + 1, cp =>
    let s := compactStep polys bnds cp
    if s.2 then compactFuel polys bnds n s.1 else cp

/-- The termination measure of the compaction loop: every successful move lowers xmin or
ymin by exactly 1/2 while its guard keeps the shifted value nonnegative. -/
def measureOf (cp : Poly) : Nat :=
  (⌊2 * (boundsOf cp).xmin⌋).toNat + (⌊2 * (boundsOf cp).ymin⌋).toNat

/-- The gravity-compaction loop of the source. `measureOf cp + 1` passes provably reach
the loop's fixed point (the termination theorem below), so this equals the exit value of
the source's unbounded `while moved:` loop on every candidate the run builds. -/
def compact (polys : List Poly) (bnds : List Rect) (cp : Poly) : Poly :=
  compactFuel polys bnds (measureOf cp + 1) cp

/-- `sc = cp.bounds[2] + cp.bounds[1] * 0.001`. -/
def scoreOf (b : Rect) : ℚ := b.xmax + b.ymin * (1 / 1000)

/-- Python `range(lo, hi)` over integers. -/
def pyRange (lo hi : ℤ) : List ℤ :=
  (List.range (hi - lo).toNat).map (fun (i : ℕ) => lo + (i : ℤ))

/-- Python `str.endswith`, modelled on the character list (the stdlib `String.endsWith`
does not reduce in the kernel). -/
def strEndsWith (s suff : String) : Bool := suff.data.isSuffixOf s.data

/-- `start_y = 0 if style.endswith("_A") or style == "Style_A" else int(fabric_width / 2)`
(Python `int()` on a nonnegative float is the floor). -/
def startYOf (style : String) (fabricWidth : ℚ) : ℤ :=
  if strEndsWith style "_A" || decide (style = "Style_A") then 0 else ⌊fabricWidth / 2⌋

/-- The y-candidate list `yc` of the source (it is rebuilt per x column but does not
depend on x): for `start_y > 0` scan the 3 cm grid from `int(start_y/3)` up to
`int((W-h)/3)`, then wrap to the grid points below `int(start_y/3)`; otherwise scan
ascending from 0. -/
def ycList (startY : ℤ) (fabricWidth h : ℚ) : List ℚ :=
  if 0 < startY then
    (pyRange ⌊(startY : ℚ) / 3⌋ (⌊(fabricWidth - h) / 3⌋ + 1)).map (fun (k : ℤ) => (k : ℚ) * 3)
    ++ (pyRange 0 ⌊(startY : ℚ) / 3⌋).map (fun (k : ℤ) => (k : ℚ) * 3)
  else
    (pyRange 0 (⌊(fabricWidth - h) / 3⌋ + 1)).map (fun (k : ℤ) => (k : ℚ) * 3)

/-- The x scan positions `[xi * step_x for xi in range(x_range + 1)]` with
`x_range = int(math.ceil((max_length - w) / step_x))`. -/
def xsList (maxLength w : ℚ) : List ℚ :=
  (pyRange 0 (⌈(maxLength - w) / 3⌉ + 1)).map (fun (k : ℤ) => (k : ℚ) * 3)

/-- The inner y loop of one x column: the first non-conflicting candidate is
gravity-compacted and returned (the source then breaks out of both position loops). -/
def scanY (polys : List Poly) (bnds : List Rect) (vpoly : Poly) (x : ℚ) : List ℚ → Option Poly
  | [] => none
  | y :: rest =>
    let cp := translatePoly x y vpoly
    let cb := boundsOf cp
    if anyConflict cp cb polys bnds then scanY polys bnds vpoly x rest
    else some (compact polys bnds cp)

/-- `x > best_score`, where `best_score` starts as `float("inf")` (modelled as `none`). -/
def cutLt : Option ℚ → ℚ → Bool
  | none, _ => false
  | some b, x => decide (b < x)

/-- The outer x loop of one orientation. `doPrune = true` is the source's
`if x > best_score: break`; `doPrune = false` is the identical search with that prune
removed, used to analyse the pruning claim. -/
def scanX (doPrune : Bool) (cut : Option ℚ) (polys : List Poly) (bnds : List Rect)
    (vpoly : Poly) (yc : List ℚ) : List ℚ → Option Poly
  | [] => none
  | x :: rest =>
    if doPrune && cutLt cut x then none
    else
      match scanY polys bnds vpoly x yc with
      | some cp => some cp
      | none => scanX doPrune cut polys bnds vpoly yc rest

/-- An accepted candidate: the source's `best_placement = {"poly": cp, "bounds": cp.bounds}`. -/
structure Cand where
  poly : Poly
  cbounds : Rect
deriving DecidableEq, Repr

/-- The oriented and normalised polygon of one variant `(angle, mirror)` together with
its width and height: rotate, optionally mirror, then translate the bounding-box minimum
corner to the origin. -/
def variantPoly (basePoly : Poly) (v : ℚ × ℤ) : Poly × ℚ × ℚ :=
  let vp0 := rotatePoly v.1 basePoly
  let vp1 := if v.2 = -1 then mirrorPoly vp0 else vp0
  let b := boundsOf vp1
  (translatePoly (-b.xmin) (-b.ymin) vp1, b.xmax - b.xmin, b.ymax - b.ymin)

/-- The search of one orientation: reject the variant when its box cannot fit
(`w > max_length or h > fabric_width`), otherwise scan the positions; `cut` is the
`best_score` the prune compares x against. -/
def variantFound (doPrune : Bool) (maxLength fabricWidth : ℚ) (startY : ℤ)
    (basePoly : Poly) (polys : List Poly) (bnds : List Rect) (cut : Option ℚ)
    (v : ℚ × ℤ) : Option Poly :=
  let w := (variantPoly basePoly v).2.1
  let h := (variantPoly basePoly v).2.2
  if decide (maxLength < w) || decide (fabricWidth < h) then none
  else
    scanX doPrune cut polys bnds (variantPoly basePoly v).1 (ycList startY fabricWidth h)
      (xsList maxLength w)

/-- The body of the orientation loop: fold the candidate the search found (when it found
one) into `(best_score, best_placement)` through `if sc < best_score`. -/
def stepVariant (doPrune : Bool) (maxLength fabricWidth : ℚ) (startY : ℤ)
    (basePoly : Poly) (polys : List Poly) (bnds : List Rect)
    (best : Option (ℚ × Cand)) (v : ℚ × ℤ) : Option (ℚ × Cand) :=
  match variantFound doPrune maxLength fabricWidth startY basePoly polys bnds
      (best.map Prod.fst) v with
  | none => best
  | some cp =>
    let cb := boundsOf cp
    let sc := scoreOf cb
    match best with
    | none => some (sc, ⟨cp, cb⟩)
    | some pr => if sc < pr.1 then some (sc, ⟨cp, cb⟩) else some pr

/-- The orientation loop threading the cancellation poll counter: the source polls the
cancel flag at the top of every variant iteration and breaks out of the variant loop when
it reports true. -/
def foldVariants (doPrune : Bool) (cancel : Nat → Bool) (maxLength fabricWidth : ℚ)
    (startY : ℤ) (basePoly : Poly) (polys : List Poly) (bnds : List Rect) :
    List (ℚ × ℤ) → Option (ℚ × Cand) × Nat → Option (ℚ × Cand) × Nat
  | [], st => st
  | v :: rest, st =>
    if cancel st.2 then (st.1, st.2 + 1)
    else
      foldVariants doPrune cancel maxLength fabricWidth startY basePoly polys bnds rest
        (stepVariant doPrune maxLength fabricWidth startY basePoly polys bnds st.1 v, st.2 + 1)

/-- The orientation loop without cancellation polls: what `foldVariants` computes when
the flag stays false (the `cancel_flag=None` case of the source). -/
def foldVariantsNC (doPrune : Bool) (maxLength fabricWidth : ℚ) (startY : ℤ)
    (basePoly : Poly) (polys : List Poly) (bnds : List Rect) :
    List (ℚ × ℤ) → Option (ℚ × Cand) → Option (ℚ × Cand)
  | [], b => b
  | v :: rest, b =>
    foldVariantsNC doPrune maxLength fabricWidth startY basePoly polys bnds rest
      (stepVariant doPrune maxLength fabricWidth startY basePoly polys bnds b v)

/-- The compacted candidates the orientation loop actually produces, each searched with
the `best_score` cutoff in force when its variant ran. -/
def foldCands (doPrune : Bool) (maxLength fabricWidth : ℚ) (startY : ℤ)
    (basePoly : Poly) (polys : List Poly) (bnds : List Rect) :
    List (ℚ × ℤ) → Option (ℚ × Cand) → List Poly
  | [], _ => []
  | v :: rest, b =>
    let tail := foldCands doPrune maxLength fabricWidth startY basePoly polys bnds rest
      (stepVariant doPrune maxLength fabricWidth startY basePoly polys bnds b v)
    match variantFound doPrune maxLength fabricWidth startY basePoly polys bnds
        (b.map Prod.fst) v with
    | none => tail
    | some cp => cp :: tail

/-- `variants = [(a, m) for a in (0, 90, 180, 270) for m in (1, -1)]`. -/
def variantsList : List (ℚ × ℤ) :=
  [(0, 1), (0, -1), (90, 1), (90, -1), (180, 1), (180, -1), (270, 1), (270, -1)]

/-- One input pattern: the source's dict `{"style": ..., "id": ..., "poly": ...}`. -/
structure Item where
  style : String
  id : String
  poly : Poly
deriving DecidableEq, Repr

/-- One placed entry: `{"style": style, "id": item["id"], "poly": best_placement["poly"]}`. -/
structure Placed where
  style : String
  id : String
  poly : Poly
deriving DecidableEq, Repr

/-- The run's state: the two result lists, the accepted polygon and bounds lists the
conflict checks read, and the cancellation poll counter. -/
structure RunSt where
  placedItems : List Placed
  unplacedItems : List Item
  placedPolys : List Poly
  placedBounds : List Rect
  polls : Nat
deriving DecidableEq, Repr

/-- The panel loop of `NestingAlgorithm.run`: poll cancellation before each panel
(`break` on true), run the orientation search, then append to `placed` or `unplaced` and
to the conflict bookkeeping lists. The progress callback of the source is side-effect
only and is omitted. -/
def runLoop (doPrune : Bool) (cancel : Nat → Bool) (fabricWidth maxLength : ℚ) :
    List Item → RunSt → RunSt
  | [], st => st
  | it :: rest, st =>
    if cancel st.polls then st
    else
      let startY := startYOf it.style fabricWidth
      let r := foldVariants doPrune cancel maxLength fabricWidth startY it.poly
        st.placedPolys st.placedBounds variantsList (none, st.polls + 1)
      match r.1 with
      | some pr =>
        runLoop doPrune cancel fabricWidth maxLength rest
          { placedItems := st.placedItems ++ [⟨it.style, it.id, pr.2.poly⟩]
            unplacedItems := st.unplacedItems
            placedPolys := st.placedPolys ++ [pr.2.poly]
            placedBounds := st.placedBounds ++ [pr.2.cbounds]
            polls := r.2 }
      | none =>
        runLoop doPrune cancel fabricWidth maxLength rest
          { st with unplacedItems := st.unplacedItems ++ [it], polls := r.2 }

/-- The Python sort key of one pattern:
`(x["poly"].area, max(width of bounds, height of bounds))`. -/
def sortKey (it : Item) : ℚ × ℚ :=
  let b := boundsOf it.poly
  (polyArea it.poly, max (b.xmax - b.xmin) (b.ymax - b.ymin))

/-- Lexicographic comparison of sort keys, as Python compares tuples. -/
def keyLex (x y : ℚ × ℚ) : Prop := x.1 < y.1 ∨ (x.1 = y.1 ∧ x.2 ≤ y.2)

instance : DecidableRel keyLex := fun x y => by unfold keyLex; infer_instance

/-- `a` may precede `b` in the sorted pattern list: `sort(key=..., reverse=True)` is the
stable descending order by key. -/
def beforeRel (a b : Item) : Prop := keyLex (sortKey b) (sortKey a)

instance : DecidableRel beforeRel := fun a b => by unfold beforeRel; infer_instance

/-- `self.patterns.sort(key=..., reverse=True)`: Python's sort is stable, and any stable
sort under the same total comparison produces the same list; insertion sort realises it
here. -/
def sortPatterns (l : List Item) : List Item := l.insertionSort beforeRel

/-- `NestingAlgorithm.run`, parameterised by whether the `if x > best_score: break` prune
is active (the source always prunes: see `run`). -/
def nestRun (doPrune : Bool) (patterns : List Item) (fabricWidth maxLength : ℚ)
    (cancel : Nat → Bool) : RunSt :=
  runLoop doPrune cancel fabricWidth maxLength (sortPatterns patterns) ⟨[], [], [], [], 0⟩

/-- `NestingAlgorithm.run(progress_cb, cancel_flag)`: sort the patterns, place each in
turn, return the placed and unplaced lists (fields of the final state). -/
def run (patterns : List Item) (fabricWidth maxLength : ℚ) (cancel : Nat → Bool) : RunSt :=
  nestRun true patterns fabricWidth maxLength cancel

/-- The identical run with the x prune removed; compared against `run` for the pruning
claim. -/
def runNoPrune (patterns : List Item) (fabricWidth maxLength : ℚ) (cancel : Nat → Bool) :
    RunSt :=
  nestRun false patterns fabricWidth maxLength cancel

/-- Score order between two `(best_score, best_placement)` accumulators: whenever the
second tracks a placement, the first tracks one of no larger score. -/
def OLe (u p : Option (ℚ × Cand)) : Prop :=
  ∀ sc c, p = some (sc, c) → ∃ sc2 c2, u = some (sc2, c2) ∧ sc2 ≤ sc

/-- Invariant of the `(best_score, best_placement)` accumulator: any tracked placement is
conflict-free against the accepted placements, stores its own bounding box, and its
recorded score is the score of that box. -/
def BestInv (polys : List Poly) (bnds : List Rect) (best : Option (ℚ × Cand)) : Prop :=
  ∀ sc c, best = some (sc, c) →
    anyConflict c.poly (boundsOf c.poly) polys bnds = false ∧
    c.cbounds = boundsOf c.poly ∧ sc = scoreOf (boundsOf c.poly)

/-- Invariant of the run state: the conflict bookkeeping lists mirror the placed list,
and no two accepted polygons are in conflict (each later one against each earlier one). -/
def StInv (st : RunSt) : Prop :=
  st.placedPolys = st.placedItems.map (fun e => e.poly) ∧
  st.placedBounds = st.placedPolys.map boundsOf ∧
  List.Pairwise (fun a b => conflictB b a = false) st.placedPolys

/-- The `cancel_flag=None` case: cancellation never requested. -/
def noCancel : Nat → Bool := fun _ => false

/- ------------------------------------------------------------------
Spec-side definitions (written from the spec's words, for the claims that compare the
code against them), and the concrete inputs used by counterexamples and witnesses.
------------------------------------------------------------------ -/

/-- The spec's lane predicate: the style tag "equals or ends with" the `_A` suffix. -/
def isLaneA (style : String) : Bool := strEndsWith style "_A" || decide (style = "Style_A")

/-- Modelled from the spec: the ascending 3 cm grid 0, 3, 6, ... of y values not
exceeding `lim`. -/
def gridUpTo (lim : ℚ) : List ℚ :=
  (pyRange 0 (⌊lim / 3⌋ + 1)).map (fun (k : ℤ) => (k : ℚ) * 3)

/-- The amended lane scan order: lane-A panels scan the grid ascending from 0 up to
`W - h`; other panels start at the largest grid multiple not exceeding the integer
half-width `⌊W/2⌋` (not at `W/2` itself, which is what the original claim said), scan up
to `W - h`, then wrap to the grid points below the start. -/
def specYc (laneA : Bool) (fabricWidth h : ℚ) : List ℚ :=
  if laneA then gridUpTo (fabricWidth - h)
  else
    let s0 : ℚ := 3 * (⌊(⌊fabricWidth / 2⌋ : ℚ) / 3⌋ : ℤ)
    (gridUpTo (fabricWidth - h)).filter (fun y => decide (s0 ≤ y)) ++ gridUpTo (s0 - 3)

/-- Rotation by k·90° about the origin. -/
def rotApply (k : ℕ) (q : Pt) : Pt :=
  match k % 4 with
  | 0 => q
  | 1 => (-q.2, q.1)
  | 2 => (-q.1, -q.2)
  | _ => (q.2, -q.1)

/-- Optional mirror about the vertical axis through the origin. -/
def mirApply (m : Bool) (q : Pt) : Pt := if m then (-q.1, q.2) else q

/-- One isometry of the allowed family applied to a point: rotate by a multiple of 90°,
optionally mirror, then translate by `v`. -/
def isoMap (k : ℕ) (m : Bool) (v : Pt) (q : Pt) : Pt :=
  (v.1 + (mirApply m (rotApply k q)).1, v.2 + (mirApply m (rotApply k q)).2)

/-- The image of a polygon under such an isometry. -/
def isoImage (k : ℕ) (m : Bool) (v : Pt) (p : Poly) : Poly := p.map (isoMap k m v)

/-- `q` is an allowed isometric image of `p`: some rotation by a multiple of 90°, an
optional mirror, and a translation carry `p` to `q` vertexwise. -/
def IsIsoOf (q p : Poly) : Prop := ∃ k m v, q = isoImage k m v p

/-- Invariant of the accumulator for the isometry claim: any tracked placement is an
allowed isometric image of the panel polygon being placed. -/
def BestIso (basePoly : Poly) (best : Option (ℚ × Cand)) : Prop :=
  ∀ sc c, best = some (sc, c) → IsIsoOf c.poly basePoly

/-- A 3×3 square. -/
def sq3 : Poly := [(0, 0), (3, 0), (3, 3), (0, 3)]

/-- A 4×4 square. -/
def sq4 : Poly := [(0, 0), (4, 0), (4, 4), (0, 4)]

/-- Two identical lane-A 3×3 squares: on a 3-wide, 4-long sheet the second one is placed
with xmax = 6 beyond the 4 cm length cap. -/
def itA : Item := ⟨"S_A", "a", sq3⟩

/-- The second of the two squares. -/
def itB : Item := ⟨"S_A", "b", sq3⟩

/-- A degenerate (zero-area) three-point polygon. -/
def degenTri : Poly := [(0, 0), (2, 0), (4, 0)]

/-- A panel with the degenerate polygon. -/
def itDegen : Item := ⟨"Z_A", "d", degenTri⟩

/-- A cancellation flag whose first true poll is poll index 1: false at the per-panel
poll, true at the first per-orientation poll. -/
def cancelAt1 : Nat → Bool := fun n => decide (1 ≤ n)

/-- An overhang support: a leg [0,1/2]×[0,9/2] carrying an arm [1/2,4]×[7/2,9/2], leaving
a pocket under the arm that a candidate can only enter by gravity compaction. -/
def gShape : Poly := [(0, 0), (1/2, 0), (1/2, 7/2), (4, 7/2), (4, 9/2), (0, 9/2)]

/-- A 6.5×0.5 floor slab (too long to stand upright on a 6 cm wide sheet). -/
def fShape : Poly := [(0, 0), (13/2, 0), (13/2, 1/2), (0, 1/2)]

/-- A 2×1 rectangle, the panel whose placement the prune changes. -/
def rShape : Poly := [(0, 0), (2, 0), (2, 1), (0, 1)]

/-- The support panel. -/
def itG : Item := ⟨"B", "G", gShape⟩

/-- The floor panel. -/
def itF : Item := ⟨"B", "F", fShape⟩

/-- The rectangle panel. -/
def itR : Item := ⟨"B", "R", rShape⟩

/-- An accepted-placements state for the pruning counterexample: an overhang block
[0, 2] x [7/2, 9/2] over the left of the sheet and a floor slab [0, 5] x [0, 1/2].
The overhang blocks the y = 3 scan lane and the slab the y = 0 lane for small x, but
a candidate entering at x = 3 gravity-compacts down to the slab's top and then slides
left beneath the overhang, ending far left of where it was tried. -/
def obstaclePolys : List Poly :=
  [[(0, 7/2), (2, 7/2), (2, 9/2), (0, 9/2)],
   [(0, 0), (5, 0), (5, 1/2), (0, 1/2)]]

/-- The recorded bounding boxes of the two accepted placements. -/
def obstacleBounds : List Rect :=
  [⟨0, 7/2, 2, 9/2⟩, ⟨0, 0, 5, 1/2⟩]

end NestSys

namespace NestSys

/- ------------------------------------------------------------------
Basic lemmas about translation and bounding boxes.
------------------------------------------------------------------ -/

theorem translatePoly_ne_nil (dx dy : ℚ) (p : Poly) (hp : p ≠ []) :
    translatePoly dx dy p ≠ [] := by
  cases p with
  | nil => exact absurd rfl hp
  | cons q qs => simp [translatePoly]

theorem boundsOf_foldl_translate (dx dy : ℚ) (qs : List Pt) : ∀ r : Rect,
    ((qs.map (fun q => ((q.1 + dx, q.2 + dy) : Pt))).foldl
      (fun r t => ⟨min r.xmin t.1, min r.ymin t.2, max r.xmax t.1, max r.ymax t.2⟩)
      ⟨r.xmin + dx, r.ymin + dy, r.xmax + dx, r.ymax + dy⟩)
    = (⟨(qs.foldl (fun r t => (⟨min r.xmin t.1, min r.ymin t.2, max r.xmax t.1, max r.ymax t.2⟩ : Rect)) r).xmin + dx,
        (qs.foldl (fun r t => (⟨min r.xmin t.1, min r.ymin t.2, max r.xmax t.1, max r.ymax t.2⟩ : Rect)) r).ymin + dy,
        (qs.foldl (fun r t => (⟨min r.xmin t.1, min r.ymin t.2, max r.xmax t.1, max r.ymax t.2⟩ : Rect)) r).xmax + dx,
        (qs.foldl (fun r t => (⟨min r.xmin t.1, min r.ymin t.2, max r.xmax t.1, max r.ymax t.2⟩ : Rect)) r).ymax + dy⟩ : Rect) := by
  induction qs with
  | nil => intro r; rfl
  | cons t ts ih =>
    intro r
    simp only [List.map_cons, List.foldl_cons]
    rw [show (⟨min (r.xmin + dx) (t.1 + dx), min (r.ymin + dy) (t.2 + dy),
          max (r.xmax + dx) (t.1 + dx), max (r.ymax + dy) (t.2 + dy)⟩ : Rect)
        = ⟨min r.xmin t.1 + dx, min r.ymin t.2 + dy, max r.xmax t.1 + dx, max r.ymax t.2 + dy⟩ by
      simp [min_add_add_right, max_add_add_right]]
    exact ih ⟨min r.xmin t.1, min r.ymin t.2, max r.xmax t.1, max r.ymax t.2⟩

theorem boundsOf_translate (dx dy : ℚ) (p : Poly) (hp : p ≠ []) :
    boundsOf (translatePoly dx dy p) =
      ⟨(boundsOf p).xmin + dx, (boundsOf p).ymin + dy,
       (boundsOf p).xmax + dx, (boundsOf p).ymax + dy⟩ := by
  cases p with
  | nil => exact absurd rfl hp
  | cons q qs =>
    show boundsOf ((q.1 + dx, q.2 + dy) :: qs.map _) = _
    unfold boundsOf
    exact boundsOf_foldl_translate dx dy qs ⟨q.1, q.2, q.1, q.2⟩

end NestSys

namespace NestSys

/- ------------------------------------------------------------------
Termination of the gravity-compaction loop (claim C9).
------------------------------------------------------------------ -/

theorem measure_down (cp : Poly) (hp : cp ≠ [])
    (hy : 0 ≤ (boundsOf (translatePoly 0 (-(1/2)) cp)).ymin) :
    measureOf (translatePoly 0 (-(1/2)) cp) < measureOf cp := by
  rw [boundsOf_translate _ _ _ hp] at hy
  unfold measureOf
  rw [boundsOf_translate _ _ _ hp]
  simp only [add_zero]
  have h1 : (2 : ℚ) * ((boundsOf cp).ymin + -(1/2)) = 2 * (boundsOf cp).ymin - (1 : ℤ) := by
    push_cast; ring
  rw [h1, Int.floor_sub_int]
  have h3 : (0 : ℤ) ≤ ⌊2 * (boundsOf cp).ymin⌋ - 1 := by
    have : (1 : ℤ) ≤ ⌊2 * (boundsOf cp).ymin⌋ := by
      rw [Int.le_floor]
      push_cast
      linarith
    omega
  omega

theorem measure_left (cp : Poly) (hp : cp ≠ [])
    (hx : 0 ≤ (boundsOf (translatePoly (-(1/2)) 0 cp)).xmin) :
    measureOf (translatePoly (-(1/2)) 0 cp) < measureOf cp := by
  rw [boundsOf_translate _ _ _ hp] at hx
  unfold measureOf
  rw [boundsOf_translate _ _ _ hp]
  simp only [add_zero]
  have h1 : (2 : ℚ) * ((boundsOf cp).xmin + -(1/2)) = 2 * (boundsOf cp).xmin - (1 : ℤ) := by
    push_cast; ring
  rw [h1, Int.floor_sub_int]
  have h3 : (0 : ℤ) ≤ ⌊2 * (boundsOf cp).xmin⌋ - 1 := by
    have : (1 : ℤ) ≤ ⌊2 * (boundsOf cp).xmin⌋ := by
      rw [Int.le_floor]
      push_cast
      linarith
    omega
  omega

set_option maxHeartbeats 1000000 in
theorem compactStep_shape (polys : List Poly) (bnds : List Rect) (cp : Poly) :
    compactStep polys bnds cp = (cp, false)
    ∨ (compactStep polys bnds cp = (translatePoly 0 (-(1/2)) cp, true)
        ∧ 0 ≤ (boundsOf (translatePoly 0 (-(1/2)) cp)).ymin
        ∧ anyConflict (translatePoly 0 (-(1/2)) cp)
            (boundsOf (translatePoly 0 (-(1/2)) cp)) polys bnds = false)
    ∨ (compactStep polys bnds cp = (translatePoly (-(1/2)) 0 cp, true)
        ∧ 0 ≤ (boundsOf (translatePoly (-(1/2)) 0 cp)).xmin
        ∧ anyConflict (translatePoly (-(1/2)) 0 cp)
            (boundsOf (translatePoly (-(1/2)) 0 cp)) polys bnds = false)
    ∨ (compactStep polys bnds cp
          = (translatePoly (-(1/2)) 0 (translatePoly 0 (-(1/2)) cp), true)
        ∧ 0 ≤ (boundsOf (translatePoly 0 (-(1/2)) cp)).ymin
        ∧ 0 ≤ (boundsOf (translatePoly (-(1/2)) 0 (translatePoly 0 (-(1/2)) cp))).xmin
        ∧ anyConflict (translatePoly (-(1/2)) 0 (translatePoly 0 (-(1/2)) cp))
            (boundsOf (translatePoly (-(1/2)) 0 (translatePoly 0 (-(1/2)) cp)))
            polys bnds = false) := by
  simp only [compactStep]
  by_cases hA : (decide (0 ≤ (boundsOf (translatePoly 0 (-(1/2)) cp)).ymin)
      && !(anyConflict (translatePoly 0 (-(1/2)) cp)
            (boundsOf (translatePoly 0 (-(1/2)) cp)) polys bnds)) = true
  · simp only [if_pos hA]
    simp only [Bool.and_eq_true, Bool.not_eq_true', decide_eq_true_eq] at hA
    by_cases hB : (decide (0 ≤ (boundsOf (translatePoly (-(1/2)) 0
          (translatePoly 0 (-(1/2)) cp))).xmin)
        && !(anyConflict (translatePoly (-(1/2)) 0 (translatePoly 0 (-(1/2)) cp))
              (boundsOf (translatePoly (-(1/2)) 0 (translatePoly 0 (-(1/2)) cp)))
              polys bnds)) = true
    · simp only [if_pos hB]
      simp only [Bool.and_eq_true, Bool.not_eq_true', decide_eq_true_eq] at hB
      exact Or.inr (Or.inr (Or.inr ⟨trivial, hA.1, hB.1, hB.2⟩))
    · simp only [if_neg hB]
      exact Or.inr (Or.inl ⟨trivial, hA.1, hA.2⟩)
  · simp only [if_neg hA]
    by_cases hB : (decide (0 ≤ (boundsOf (translatePoly (-(1/2)) 0 cp)).xmin)
        && !(anyConflict (translatePoly (-(1/2)) 0 cp)
              (boundsOf (translatePoly (-(1/2)) 0 cp)) polys bnds)) = true
    · simp only [if_pos hB]
      simp only [Bool.and_eq_true, Bool.not_eq_true', decide_eq_true_eq] at hB
      exact Or.inr (Or.inr (Or.inl ⟨trivial, hB.1, hB.2⟩))
    · simp only [if_neg hB]
      exact Or.inl trivial

theorem compactStep_measure (polys : List Poly) (bnds : List Rect) (cp : Poly)
    (hp : cp ≠ []) (hm : (compactStep polys bnds cp).2 = true) :
    measureOf (compactStep polys bnds cp).1 < measureOf cp := by
  have hp1 : translatePoly 0 (-(1/2)) cp ≠ [] := translatePoly_ne_nil _ _ _ hp
  rcases compactStep_shape polys bnds cp with h | ⟨h, hy, -⟩ | ⟨h, hx, -⟩ | ⟨h, hy, hx, -⟩
  · rw [h] at hm; exact absurd hm (by simp)
  · rw [h]; exact measure_down cp hp hy
  · rw [h]; exact measure_left cp hp hx
  · rw [h]
    exact lt_trans (measure_left _ hp1 hx) (measure_down cp hp hy)

theorem compactStep_ne_nil (polys : List Poly) (bnds : List Rect) (cp : Poly)
    (hp : cp ≠ []) : (compactStep polys bnds cp).1 ≠ [] := by
  have hp1 : translatePoly 0 (-(1/2)) cp ≠ [] := translatePoly_ne_nil _ _ _ hp
  rcases compactStep_shape polys bnds cp with h | ⟨h, -, -⟩ | ⟨h, -, -⟩ | ⟨h, -, -, -⟩ <;> rw [h]
  · exact hp
  · exact hp1
  · exact translatePoly_ne_nil _ _ _ hp
  · exact translatePoly_ne_nil _ _ _ hp1

theorem compactFuel_fix (polys : List Poly) (bnds : List Rect) : ∀ (n : Nat) (cp : Poly),
    cp ≠ [] → measureOf cp < n →
    (compactStep polys bnds (compactFuel polys bnds n cp)).2 = false := by
  intro n
  induction n with
  | zero => intro cp _ h; omega
  | succ n ih =>
    intro cp hp hlt
    show (compactStep polys bnds
      (if (compactStep polys bnds cp).2 then
        compactFuel polys bnds n (compactStep polys bnds cp).1 else cp)).2 = false
    by_cases hm : (compactStep polys bnds cp).2 = true
    · rw [if_pos hm]
      have h1 := compactStep_measure polys bnds cp hp hm
      exact ih _ (compactStep_ne_nil _ _ _ hp) (by omega)
    · rw [if_neg hm]
      rw [Bool.not_eq_true] at hm
      exact hm

theorem compactFuel_add (polys : List Poly) (bnds : List Rect) : ∀ (n m : Nat) (cp : Poly),
    cp ≠ [] → measureOf cp < n →
    compactFuel polys bnds (n + m) cp = compactFuel polys bnds n cp := by
  intro n
  induction n with
  | zero => intro m cp _ h; omega
  | succ n ih =>
    intro m cp hp hlt
    rw [show n + 1 + m = (n + m) + 1 by omega]
    show (if (compactStep polys bnds cp).2 then
        compactFuel polys bnds (n + m) (compactStep polys bnds cp).1 else cp)
      = (if (compactStep polys bnds cp).2 then
        compactFuel polys bnds n (compactStep polys bnds cp).1 else cp)
    by_cases hm : (compactStep polys bnds cp).2 = true
    · rw [if_pos hm, if_pos hm]
      have h1 := compactStep_measure polys bnds cp hp hm
      exact ih m _ (compactStep_ne_nil _ _ _ hp) (by omega)
    · rw [if_neg hm, if_neg hm]

end NestSys

namespace NestSys

/- ------------------------------------------------------------------
Conflict-freedom is preserved by compaction and the search (claim C2).
------------------------------------------------------------------ -/

theorem compactStep_conflictFree (polys : List Poly) (bnds : List Rect) (cp : Poly)
    (h : anyConflict cp (boundsOf cp) polys bnds = false) :
    anyConflict (compactStep polys bnds cp).1 (boundsOf (compactStep polys bnds cp).1)
      polys bnds = false := by
  rcases compactStep_shape polys bnds cp with h0 | ⟨he, -, hc⟩ | ⟨he, -, hc⟩ | ⟨he, -, -, hc⟩
  · rw [h0]; exact h
  · rw [he]; exact hc
  · rw [he]; exact hc
  · rw [he]; exact hc

theorem compactFuel_conflictFree (polys : List Poly) (bnds : List Rect) :
    ∀ (n : Nat) (cp : Poly), anyConflict cp (boundsOf cp) polys bnds = false →
    anyConflict (compactFuel polys bnds n cp) (boundsOf (compactFuel polys bnds n cp))
      polys bnds = false := by
  intro n
  induction n with
  | zero => intro cp h; exact h
  | succ n ih =>
    intro cp h
    show anyConflict (if (compactStep polys bnds cp).2 then
        compactFuel polys bnds n (compactStep polys bnds cp).1 else cp)
      (boundsOf (if (compactStep polys bnds cp).2 then
        compactFuel polys bnds n (compactStep polys bnds cp).1 else cp)) polys bnds = false
    by_cases hm : (compactStep polys bnds cp).2 = true
    · rw [if_pos hm]
      exact ih _ (compactStep_conflictFree polys bnds cp h)
    · rw [if_neg hm]
      exact h

theorem compact_conflictFree (polys : List Poly) (bnds : List Rect) (cp : Poly)
    (h : anyConflict cp (boundsOf cp) polys bnds = false) :
    anyConflict (compact polys bnds cp) (boundsOf (compact polys bnds cp))
      polys bnds = false :=
  compactFuel_conflictFree polys bnds _ cp h

theorem scanY_conflictFree (polys : List Poly) (bnds : List Rect) (vpoly : Poly) (x : ℚ) :
    ∀ (yc : List ℚ) (cp : Poly), scanY polys bnds vpoly x yc = some cp →
    anyConflict cp (boundsOf cp) polys bnds = false := by
  intro yc
  induction yc with
  | nil => intro cp h; exact absurd h (by simp [scanY])
  | cons y rest ih =>
    intro cp h
    simp only [scanY] at h
    by_cases hc : anyConflict (translatePoly x y vpoly)
        (boundsOf (translatePoly x y vpoly)) polys bnds = true
    · rw [if_pos hc] at h
      exact ih cp h
    · rw [if_neg hc] at h
      rw [Bool.not_eq_true] at hc
      cases h
      exact compact_conflictFree polys bnds _ hc

theorem scanX_conflictFree (doPrune : Bool) (cut : Option ℚ) (polys : List Poly)
    (bnds : List Rect) (vpoly : Poly) (yc : List ℚ) :
    ∀ (xs : List ℚ) (cp : Poly), scanX doPrune cut polys bnds vpoly yc xs = some cp →
    anyConflict cp (boundsOf cp) polys bnds = false := by
  intro xs
  induction xs with
  | nil => intro cp h; exact absurd h (by simp [scanX])
  | cons x rest ih =>
    intro cp h
    simp only [scanX] at h
    by_cases hcut : (doPrune && cutLt cut x) = true
    · rw [if_pos hcut] at h
      exact absurd h (by simp)
    · rw [if_neg hcut] at h
      cases hy : scanY polys bnds vpoly x yc with
      | none => rw [hy] at h; exact ih cp h
      | some cp0 =>
        rw [hy] at h
        cases h
        exact scanY_conflictFree polys bnds vpoly x yc _ hy

theorem variantFound_conflictFree (doPrune : Bool) (maxLength fabricWidth : ℚ)
    (startY : ℤ) (basePoly : Poly) (polys : List Poly) (bnds : List Rect)
    (cut : Option ℚ) (v : ℚ × ℤ) (cp : Poly)
    (h : variantFound doPrune maxLength fabricWidth startY basePoly polys bnds cut v
      = some cp) :
    anyConflict cp (boundsOf cp) polys bnds = false := by
  unfold variantFound at h
  by_cases hsz : (decide (maxLength < (variantPoly basePoly v).2.1)
      || decide (fabricWidth < (variantPoly basePoly v).2.2)) = true
  · rw [if_pos hsz] at h
    exact absurd h (by simp)
  · rw [if_neg hsz] at h
    exact scanX_conflictFree _ _ _ _ _ _ _ _ h

theorem stepVariant_inv (doPrune : Bool) (maxLength fabricWidth : ℚ) (startY : ℤ)
    (basePoly : Poly) (polys : List Poly) (bnds : List Rect)
    (best : Option (ℚ × Cand)) (v : ℚ × ℤ) (hb : BestInv polys bnds best) :
    BestInv polys bnds
      (stepVariant doPrune maxLength fabricWidth startY basePoly polys bnds best v) := by
  unfold stepVariant
  cases hvf : variantFound doPrune maxLength fabricWidth startY basePoly polys bnds
      (best.map Prod.fst) v with
  | none => exact hb
  | some cp =>
    have hcf := variantFound_conflictFree _ _ _ _ _ _ _ _ _ cp hvf
    cases best with
    | none =>
      intro sc c hsome
      simp only [Option.some.injEq, Prod.mk.injEq] at hsome
      obtain ⟨h1, h2⟩ := hsome
      subst h2
      exact ⟨hcf, rfl, h1.symm⟩
    | some pr =>
      show BestInv polys bnds
        (if scoreOf (boundsOf cp) < pr.1
          then some (scoreOf (boundsOf cp), ⟨cp, boundsOf cp⟩) else some pr)
      by_cases hlt : scoreOf (boundsOf cp) < pr.1
      · rw [if_pos hlt]
        intro sc c hsome
        simp only [Option.some.injEq, Prod.mk.injEq] at hsome
        obtain ⟨h1, h2⟩ := hsome
        subst h2
        exact ⟨hcf, rfl, h1.symm⟩
      · rw [if_neg hlt]
        intro sc c hsome
        simp only [Option.some.injEq] at hsome
        exact hb sc c (by rw [hsome])

theorem foldVariants_inv (doPrune : Bool) (cancel : Nat → Bool)
    (maxLength fabricWidth : ℚ) (startY : ℤ) (basePoly : Poly) (polys : List Poly)
    (bnds : List Rect) : ∀ (vs : List (ℚ × ℤ)) (st : Option (ℚ × Cand) × Nat),
    BestInv polys bnds st.1 →
    BestInv polys bnds
      (foldVariants doPrune cancel maxLength fabricWidth startY basePoly polys bnds vs st).1 := by
  intro vs
  induction vs with
  | nil => intro st h; exact h
  | cons v rest ih =>
    intro st h
    show BestInv polys bnds
      (if cancel st.2 then (st.1, st.2 + 1) else
        foldVariants doPrune cancel maxLength fabricWidth startY basePoly polys bnds rest
          (stepVariant doPrune maxLength fabricWidth startY basePoly polys bnds st.1 v,
            st.2 + 1)).1
    by_cases hc : cancel st.2 = true
    · rw [if_pos hc]; exact h
    · rw [if_neg hc]
      exact ih _ (stepVariant_inv _ _ _ _ _ _ _ _ _ h)

theorem anyConflict_forall (cp : Poly) : ∀ (polys : List Poly),
    anyConflict cp (boundsOf cp) polys (polys.map boundsOf) = false →
    ∀ q ∈ polys, conflictB cp q = false := by
  intro polys
  induction polys with
  | nil => intro _ q hq; exact absurd hq (by simp)
  | cons p0 ps ih =>
    intro h q hq
    simp only [anyConflict, List.map_cons, List.zip_cons_cons, List.any_cons,
      Bool.or_eq_false_iff] at h
    rcases List.mem_cons.mp hq with hq2 | hq2
    · subst hq2
      exact h.1
    · exact ih (by simpa [anyConflict] using h.2) q hq2

theorem runLoop_inv (doPrune : Bool) (cancel : Nat → Bool) (fabricWidth maxLength : ℚ) :
    ∀ (l : List Item) (st : RunSt), StInv st →
    StInv (runLoop doPrune cancel fabricWidth maxLength l st) := by
  intro l
  induction l with
  | nil => intro st h; exact h
  | cons it rest ih =>
    intro st h
    obtain ⟨hP, hB, hpw⟩ := h
    simp only [runLoop]
    by_cases hc : cancel st.polls = true
    · rw [if_pos hc]; exact ⟨hP, hB, hpw⟩
    · rw [if_neg hc]
      have hfold := foldVariants_inv doPrune cancel maxLength fabricWidth
        (startYOf it.style fabricWidth) it.poly st.placedPolys st.placedBounds
        variantsList (none, st.polls + 1) (by intro sc c hsc; exact absurd hsc (by simp))
      cases hr : (foldVariants doPrune cancel maxLength fabricWidth
          (startYOf it.style fabricWidth) it.poly st.placedPolys st.placedBounds
          variantsList (none, st.polls + 1)).1 with
      | none =>
        exact ih _ ⟨hP, hB, hpw⟩
      | some pr =>
        obtain ⟨hcf, hcb, -⟩ := hfold pr.1 pr.2 (by rw [hr])
        show StInv (runLoop doPrune cancel fabricWidth maxLength rest _)
        apply ih
        refine ⟨?_, ?_, ?_⟩
        · simp [hP]
        · simp [hB, hcb]
        · rw [List.pairwise_append]
          refine ⟨hpw, by simp, ?_⟩
          intro a ha b hb
          simp only [List.mem_singleton] at hb
          subst hb
          have := anyConflict_forall pr.2.poly st.placedPolys (by rw [← hB]; exact hcf)
          exact this a ha

end NestSys

namespace NestSys

/- ------------------------------------------------------------------
Poll accounting and the placed/unplaced partition (claims C4, C5).
------------------------------------------------------------------ -/

theorem foldVariants_all_false (doPrune : Bool) (cancel : Nat → Bool)
    (maxLength fabricWidth : ℚ) (startY : ℤ) (basePoly : Poly) (polys : List Poly)
    (bnds : List Rect) : ∀ (vs : List (ℚ × ℤ)) (b : Option (ℚ × Cand)) (k : Nat),
    (∀ i, k ≤ i → i < k + vs.length → cancel i = false) →
    foldVariants doPrune cancel maxLength fabricWidth startY basePoly polys bnds vs (b, k)
      = (foldVariantsNC doPrune maxLength fabricWidth startY basePoly polys bnds vs b,
         k + vs.length) := by
  intro vs
  induction vs with
  | nil => intro b k _; simp [foldVariants, foldVariantsNC]
  | cons v rest ih =>
    intro b k hall
    have h0 : cancel k = false := hall k le_rfl (by simp)
    show (if cancel k then (b, k + 1) else
      foldVariants doPrune cancel maxLength fabricWidth startY basePoly polys bnds rest
        (stepVariant doPrune maxLength fabricWidth startY basePoly polys bnds b v, k + 1)) = _
    rw [if_neg (by simp [h0])]
    rw [ih _ (k + 1) (by intro i h1 h2; exact hall i (by omega) (by simp at h2 ⊢; omega))]
    simp only [foldVariantsNC, List.length_cons]
    rw [show k + 1 + rest.length = k + (rest.length + 1) by omega]

theorem perm_shuffle {α : Type} (A B C : List α) (x : α) :
    ((A ++ [x]) ++ B ++ C).Perm ((A ++ B) ++ x :: C) := by
  have h1 : (A ++ [x]) ++ B ++ C = A ++ (([x] ++ B) ++ C) := by simp
  have h2 : (A ++ B) ++ x :: C = A ++ ((B ++ [x]) ++ C) := by simp
  rw [h1, h2]
  exact List.Perm.append_left A
    (List.Perm.append (List.perm_append_comm) (List.Perm.refl C))

theorem perm_shuffle2 {α : Type} (A B C : List α) (x : α) :
    (A ++ (B ++ [x]) ++ C).Perm ((A ++ B) ++ x :: C) := by
  have h2 : (A ++ B) ++ x :: C = A ++ (B ++ ([x] ++ C)) := by simp
  have h1 : A ++ (B ++ [x]) ++ C = A ++ (B ++ ([x] ++ C)) := by simp
  rw [h1, h2]

theorem runLoop_partition (doPrune : Bool) (cancel : Nat → Bool)
    (fabricWidth maxLength : ℚ) : ∀ (l : List Item) (st : RunSt),
    (∀ i, cancel i = false) →
    (((runLoop doPrune cancel fabricWidth maxLength l st).placedItems.map (fun e => e.id))
      ++ ((runLoop doPrune cancel fabricWidth maxLength l st).unplacedItems.map (fun e => e.id))).Perm
    (((st.placedItems.map (fun e => e.id)) ++ (st.unplacedItems.map (fun e => e.id)))
      ++ l.map (fun e => e.id)) := by
  intro l
  induction l with
  | nil => intro st _; simp [runLoop]
  | cons it rest ih =>
    intro st hall
    simp only [runLoop, hall st.polls, Bool.false_eq_true, if_false]
    cases hr : (foldVariants doPrune cancel maxLength fabricWidth
        (startYOf it.style fabricWidth) it.poly st.placedPolys st.placedBounds
        variantsList (none, st.polls + 1)).1 with
    | some pr =>
      refine (ih _ hall).trans ?_
      simp only [List.map_append, List.map_cons, List.map_nil]
      exact perm_shuffle _ _ _ _
    | none =>
      refine (ih _ hall).trans ?_
      simp only [List.map_append, List.map_cons, List.map_nil]
      exact perm_shuffle2 _ _ _ _

theorem runLoop_truncation (doPrune : Bool) (cancel : Nat → Bool)
    (fabricWidth maxLength : ℚ) : ∀ (k : Nat) (l : List Item) (st : RunSt),
    k ≤ l.length →
    (∀ i, st.polls ≤ i → i < st.polls + 9 * k → cancel i = false) →
    cancel (st.polls + 9 * k) = true →
    (((runLoop doPrune cancel fabricWidth maxLength l st).placedItems.map (fun e => e.id))
      ++ ((runLoop doPrune cancel fabricWidth maxLength l st).unplacedItems.map (fun e => e.id))).Perm
    (((st.placedItems.map (fun e => e.id)) ++ (st.unplacedItems.map (fun e => e.id)))
      ++ (l.take k).map (fun e => e.id)) := by
  intro k
  induction k with
  | zero =>
    intro l st _ _ hcan
    cases l with
    | nil => simp [runLoop]
    | cons it rest =>
      simp only [runLoop]
      rw [if_pos (by simpa using hcan)]
      simp
  | succ k ih =>
    intro l st hk hall hcan
    cases l with
    | nil => simp at hk
    | cons it rest =>
      simp only [runLoop]
      rw [if_neg (by rw [hall st.polls le_rfl (by omega)]; simp)]
      rw [foldVariants_all_false doPrune cancel maxLength fabricWidth
        (startYOf it.style fabricWidth) it.poly st.placedPolys st.placedBounds
        variantsList none (st.polls + 1)
        (by intro i h1 h2; exact hall i (by omega) (by simp [variantsList] at h2 ⊢; omega))]
      simp only [variantsList]
      cases hr : foldVariantsNC doPrune maxLength fabricWidth
          (startYOf it.style fabricWidth) it.poly st.placedPolys st.placedBounds
          [(0, 1), (0, -1), (90, 1), (90, -1), (180, 1), (180, -1), (270, 1), (270, -1)]
          none with
      | some pr =>
        have hi := ih rest
          { placedItems := st.placedItems ++ [⟨it.style, it.id, pr.2.poly⟩]
            unplacedItems := st.unplacedItems
            placedPolys := st.placedPolys ++ [pr.2.poly]
            placedBounds := st.placedBounds ++ [pr.2.cbounds]
            polls := st.polls + 1 + 8 }
          (by simpa using hk)
          (by intro i h1 h2; simp only [] at h1 h2; exact hall i (by omega) (by omega))
          (by show cancel (st.polls + 1 + 8 + 9 * k) = true
              rw [show st.polls + 1 + 8 + 9 * k = st.polls + 9 * (k + 1) by ring]
              exact hcan)
        refine hi.trans ?_
        simp only [List.map_append, List.map_cons, List.map_nil, List.take_succ_cons]
        exact perm_shuffle _ _ _ _
      | none =>
        have hi := ih rest
          { placedItems := st.placedItems
            unplacedItems := st.unplacedItems ++ [it]
            placedPolys := st.placedPolys
            placedBounds := st.placedBounds
            polls := st.polls + 1 + 8 }
          (by simpa using hk)
          (by intro i h1 h2; simp only [] at h1 h2; exact hall i (by omega) (by omega))
          (by show cancel (st.polls + 1 + 8 + 9 * k) = true
              rw [show st.polls + 1 + 8 + 9 * k = st.polls + 9 * (k + 1) by ring]
              exact hcan)
        refine hi.trans ?_
        simp only [List.map_append, List.map_cons, List.map_nil, List.take_succ_cons]
        exact perm_shuffle2 _ _ _ _

theorem sortPatterns_perm (l : List Item) : (sortPatterns l).Perm l :=
  List.perm_insertionSort beforeRel l

end NestSys

namespace NestSys

/- ------------------------------------------------------------------
The score fold: minimality of the selection (claim C3) and what pruning
can and cannot change (claim C7).
------------------------------------------------------------------ -/

theorem stepVariant_notFound (doPrune : Bool) (maxLength fabricWidth : ℚ) (startY : ℤ)
    (basePoly : Poly) (polys : List Poly) (bnds : List Rect)
    (best : Option (ℚ × Cand)) (v : ℚ × ℤ)
    (hvf : variantFound doPrune maxLength fabricWidth startY basePoly polys bnds
      (best.map Prod.fst) v = none) :
    stepVariant doPrune maxLength fabricWidth startY basePoly polys bnds best v = best := by
  unfold stepVariant
  rw [hvf]

theorem stepVariant_found (doPrune : Bool) (maxLength fabricWidth : ℚ) (startY : ℤ)
    (basePoly : Poly) (polys : List Poly) (bnds : List Rect)
    (best : Option (ℚ × Cand)) (v : ℚ × ℤ) (cp : Poly)
    (hvf : variantFound doPrune maxLength fabricWidth startY basePoly polys bnds
      (best.map Prod.fst) v = some cp) :
    (stepVariant doPrune maxLength fabricWidth startY basePoly polys bnds best v
        = some (scoreOf (boundsOf cp), ⟨cp, boundsOf cp⟩)
      ∧ (∀ sc0 c0, best = some (sc0, c0) → scoreOf (boundsOf cp) ≤ sc0))
    ∨ (∃ sc0 c0, best = some (sc0, c0)
        ∧ stepVariant doPrune maxLength fabricWidth startY basePoly polys bnds best v = best
        ∧ sc0 ≤ scoreOf (boundsOf cp)) := by
  unfold stepVariant
  rw [hvf]
  cases best with
  | none =>
    left
    exact ⟨rfl, fun sc0 c0 h => absurd h (by simp)⟩
  | some pr =>
    by_cases hlt : scoreOf (boundsOf cp) < pr.1
    · left
      constructor
      · show (if scoreOf (boundsOf cp) < pr.1
            then some (scoreOf (boundsOf cp), ⟨cp, boundsOf cp⟩) else some pr) = _
        rw [if_pos hlt]
      · intro sc0 c0 h
        simp only [Option.some.injEq] at h
        subst h
        exact le_of_lt hlt
    · right
      refine ⟨pr.1, pr.2, by simp, ?_, not_lt.mp hlt⟩
      show (if scoreOf (boundsOf cp) < pr.1
          then some (scoreOf (boundsOf cp), ⟨cp, boundsOf cp⟩) else some pr) = some pr
      rw [if_neg hlt]

theorem stepVariant_ole (doPrune : Bool) (maxLength fabricWidth : ℚ) (startY : ℤ)
    (basePoly : Poly) (polys : List Poly) (bnds : List Rect)
    (best : Option (ℚ × Cand)) (v : ℚ × ℤ) :
    OLe (stepVariant doPrune maxLength fabricWidth startY basePoly polys bnds best v)
      best := by
  intro sc c hb
  cases hvf : variantFound doPrune maxLength fabricWidth startY basePoly polys bnds
      (best.map Prod.fst) v with
  | none =>
    rw [stepVariant_notFound _ _ _ _ _ _ _ _ _ hvf, hb]
    exact ⟨sc, c, rfl, le_rfl⟩
  | some cp =>
    rcases stepVariant_found _ _ _ _ _ _ _ _ _ cp hvf with ⟨he, hle⟩ | ⟨sc0, c0, hb0, he, -⟩
    · exact ⟨_, _, he, hle sc c hb⟩
    · rw [he, hb]
      exact ⟨sc, c, rfl, le_rfl⟩

theorem scanX_prune_some (cut cut2 : Option ℚ) (polys : List Poly) (bnds : List Rect)
    (vpoly : Poly) (yc : List ℚ) : ∀ (xs : List ℚ) (cp : Poly),
    scanX true cut polys bnds vpoly yc xs = some cp →
    scanX false cut2 polys bnds vpoly yc xs = some cp := by
  intro xs
  induction xs with
  | nil => intro cp h; exact absurd h (by simp [scanX])
  | cons x rest ih =>
    intro cp h
    simp only [scanX, Bool.true_and, Bool.false_and, Bool.false_eq_true, if_false] at h ⊢
    by_cases hcut : cutLt cut x = true
    · rw [if_pos hcut] at h
      exact absurd h (by simp)
    · rw [if_neg hcut] at h
      cases hy : scanY polys bnds vpoly x yc with
      | none => rw [hy] at h; exact ih cp h
      | some cp0 => rw [hy] at h; exact h

theorem variantFound_prune (maxLength fabricWidth : ℚ) (startY : ℤ) (basePoly : Poly)
    (polys : List Poly) (bnds : List Rect) (cut cut2 : Option ℚ) (v : ℚ × ℤ) (cp : Poly)
    (h : variantFound true maxLength fabricWidth startY basePoly polys bnds cut v
      = some cp) :
    variantFound false maxLength fabricWidth startY basePoly polys bnds cut2 v
      = some cp := by
  unfold variantFound at h ⊢
  by_cases hsz : (decide (maxLength < (variantPoly basePoly v).2.1)
      || decide (fabricWidth < (variantPoly basePoly v).2.2)) = true
  · rw [if_pos hsz] at h
    exact absurd h (by simp)
  · rw [if_neg hsz] at h ⊢
    exact scanX_prune_some _ _ _ _ _ _ _ _ h

theorem foldNC_prune_mono (maxLength fabricWidth : ℚ) (startY : ℤ) (basePoly : Poly)
    (polys : List Poly) (bnds : List Rect) : ∀ (vs : List (ℚ × ℤ))
    (p u : Option (ℚ × Cand)), OLe u p →
    OLe (foldVariantsNC false maxLength fabricWidth startY basePoly polys bnds vs u)
      (foldVariantsNC true maxLength fabricWidth startY basePoly polys bnds vs p) := by
  intro vs
  induction vs with
  | nil => intro p u h; exact h
  | cons v rest ih =>
    intro p u h
    show OLe (foldVariantsNC false maxLength fabricWidth startY basePoly polys bnds rest
        (stepVariant false maxLength fabricWidth startY basePoly polys bnds u v))
      (foldVariantsNC true maxLength fabricWidth startY basePoly polys bnds rest
        (stepVariant true maxLength fabricWidth startY basePoly polys bnds p v))
    apply ih
    cases hvfP : variantFound true maxLength fabricWidth startY basePoly polys bnds
        (p.map Prod.fst) v with
    | none =>
      rw [stepVariant_notFound _ _ _ _ _ _ _ _ _ hvfP]
      intro sc c hp
      obtain ⟨sc2, c2, he2, hle2⟩ := h sc c hp
      obtain ⟨sc3, c3, he3, hle3⟩ :=
        stepVariant_ole false maxLength fabricWidth startY basePoly polys bnds u v sc2 c2 he2
      exact ⟨sc3, c3, he3, hle3.trans hle2⟩
    | some cp =>
      have hvfU := variantFound_prune maxLength fabricWidth startY basePoly polys bnds
        (p.map Prod.fst) (u.map Prod.fst) v cp hvfP
      intro sc c hp
      rcases stepVariant_found false maxLength fabricWidth startY basePoly polys bnds u v
          cp hvfU with ⟨heU, hleU⟩ | ⟨scU, cU, hbU, heU, hleU⟩ <;>
      rcases stepVariant_found true maxLength fabricWidth startY basePoly polys bnds p v
          cp hvfP with ⟨heP, hleP⟩ | ⟨scP, cP, hbP, heP, hleP⟩
      · rw [heP] at hp
        simp only [Option.some.injEq, Prod.mk.injEq] at hp
        exact ⟨_, _, heU, le_of_eq hp.1⟩
      · rw [heP, hbP] at hp
        simp only [Option.some.injEq, Prod.mk.injEq] at hp
        obtain ⟨sc2, c2, he2, hle2⟩ := h scP cP hbP
        exact ⟨_, _, heU, hp.1 ▸ ((hleU _ _ he2).trans hle2)⟩
      · rw [heP] at hp
        simp only [Option.some.injEq, Prod.mk.injEq] at hp
        rw [heU, hbU]
        exact ⟨scU, cU, rfl, hp.1 ▸ hleU⟩
      · rw [heP, hbP] at hp
        simp only [Option.some.injEq, Prod.mk.injEq] at hp
        obtain ⟨sc2, c2, he2, hle2⟩ := h scP cP hbP
        rw [heU, he2]
        exact ⟨sc2, c2, rfl, hp.1 ▸ hle2⟩

end NestSys

namespace NestSys

theorem stepVariant_score (doPrune : Bool) (maxLength fabricWidth : ℚ) (startY : ℤ)
    (basePoly : Poly) (polys : List Poly) (bnds : List Rect)
    (best : Option (ℚ × Cand)) (v : ℚ × ℤ)
    (hb : ∀ sc c, best = some (sc, c) → sc = scoreOf (boundsOf c.poly)) :
    ∀ sc c, stepVariant doPrune maxLength fabricWidth startY basePoly polys bnds best v
      = some (sc, c) → sc = scoreOf (boundsOf c.poly) := by
  intro sc c h
  cases hvf : variantFound doPrune maxLength fabricWidth startY basePoly polys bnds
      (best.map Prod.fst) v with
  | none =>
    rw [stepVariant_notFound _ _ _ _ _ _ _ _ _ hvf] at h
    exact hb sc c h
  | some cp =>
    rcases stepVariant_found _ _ _ _ _ _ _ _ _ cp hvf with ⟨he, -⟩ | ⟨sc0, c0, hb0, he, -⟩
    · rw [he] at h
      simp only [Option.some.injEq, Prod.mk.injEq] at h
      rw [← h.1, ← h.2]
    · rw [he] at h
      exact hb sc c h

set_option maxHeartbeats 1000000 in
theorem foldNC_min (doPrune : Bool) (maxLength fabricWidth : ℚ) (startY : ℤ)
    (basePoly : Poly) (polys : List Poly) (bnds : List Rect) :
    ∀ (vs : List (ℚ × ℤ)) (b : Option (ℚ × Cand)),
    (∀ sc c, b = some (sc, c) → sc = scoreOf (boundsOf c.poly)) →
    ((foldVariantsNC doPrune maxLength fabricWidth startY basePoly polys bnds vs b = none
        ↔ (b = none
          ∧ foldCands doPrune maxLength fabricWidth startY basePoly polys bnds vs b = []))
    ∧ ∀ sc c, foldVariantsNC doPrune maxLength fabricWidth startY basePoly polys bnds vs b
        = some (sc, c) →
        sc = scoreOf (boundsOf c.poly)
        ∧ (b = some (sc, c)
          ∨ c.poly ∈ foldCands doPrune maxLength fabricWidth startY basePoly polys bnds vs b)
        ∧ (∀ q ∈ foldCands doPrune maxLength fabricWidth startY basePoly polys bnds vs b,
            sc ≤ scoreOf (boundsOf q))
        ∧ (∀ sc0 c0, b = some (sc0, c0) → sc ≤ sc0)) := by
  intro vs
  induction vs with
  | nil =>
    intro b hb
    constructor
    · simp [foldVariantsNC, foldCands]
    · intro sc c h
      simp only [foldVariantsNC] at h
      refine ⟨hb sc c h, Or.inl h, by simp [foldCands], ?_⟩
      intro sc0 c0 h0
      rw [h] at h0
      simp only [Option.some.injEq, Prod.mk.injEq] at h0
      exact le_of_eq h0.1
  | cons v rest ih =>
    intro b hb
    have hb2 := stepVariant_score doPrune maxLength fabricWidth startY basePoly polys bnds
      b v hb
    obtain ⟨ih1, ih2⟩ := ih
      (stepVariant doPrune maxLength fabricWidth startY basePoly polys bnds b v) hb2
    simp only [foldVariantsNC, foldCands]
    cases hvf : variantFound doPrune maxLength fabricWidth startY basePoly polys bnds
        (b.map Prod.fst) v with
    | none =>
      rw [stepVariant_notFound _ _ _ _ _ _ _ _ _ hvf] at ih1 ih2 ⊢
      exact ⟨ih1, ih2⟩
    | some cp =>
      have hsome : ∃ pr, stepVariant doPrune maxLength fabricWidth startY basePoly polys
          bnds b v = some pr := by
        rcases stepVariant_found _ _ _ _ _ _ _ _ _ cp hvf with ⟨he, -⟩ | ⟨s0, c0, hb0, he, -⟩
        · exact ⟨_, he⟩
        · rw [he, hb0]; exact ⟨_, rfl⟩
      constructor
      · constructor
        · intro hnone
          obtain ⟨hbn, -⟩ := ih1.mp hnone
          obtain ⟨pr, hpr⟩ := hsome
          rw [hpr] at hbn
          exact absurd hbn (by simp)
        · rintro ⟨-, hcl⟩
          exact absurd hcl (by simp)
      · intro sc c hsc
        obtain ⟨hscore, hmem, hall, hle⟩ := ih2 sc c hsc
        have hleB : ∀ sc0 c0, b = some (sc0, c0) → sc ≤ sc0 := by
          intro sc0 c0 hb0
          rcases stepVariant_found _ _ _ _ _ _ _ _ _ cp hvf with ⟨he, hcl⟩ |
              ⟨s1, c1, hb1, he, hle1⟩
          · exact (hle _ _ he).trans (hcl sc0 c0 hb0)
          · rw [he] at hle
            exact hle sc0 c0 hb0
        have hleCp : sc ≤ scoreOf (boundsOf cp) := by
          rcases stepVariant_found _ _ _ _ _ _ _ _ _ cp hvf with ⟨he, hcl⟩ |
              ⟨s1, c1, hb1, he, hle1⟩
          · exact hle _ _ he
          · rw [he] at hle
            exact (hle s1 c1 hb1).trans hle1
        refine ⟨hscore, ?_, ?_, hleB⟩
        · rcases hmem with hmem | hmem
          · rcases stepVariant_found _ _ _ _ _ _ _ _ _ cp hvf with ⟨he, -⟩ |
                ⟨s1, c1, hb1, he, -⟩
            · rw [he] at hmem
              simp only [Option.some.injEq, Prod.mk.injEq] at hmem
              right
              rw [← hmem.2]
              exact List.mem_cons_self _ _
            · rw [he] at hmem
              exact Or.inl hmem
          · right
            exact List.mem_cons_of_mem _ hmem
        · intro q hq
          rcases List.mem_cons.mp hq with hq2 | hq2
          · rw [hq2]
            exact hleCp
          · exact hall q hq2

end NestSys

namespace NestSys

/- ------------------------------------------------------------------
Every transformation the run applies is one of the allowed isometries
(claim C10): pointwise identities and closure lemmas.
------------------------------------------------------------------ -/

theorem sumMapAdd (l : List (Pt × Pt)) (f g : Pt × Pt → ℚ) :
    (l.map (fun x => f x + g x)).sum = (l.map f).sum + (l.map g).sum := by
  induction l with
  | nil => simp
  | cons a t ih => simp only [List.map_cons, List.sum_cons, ih]; ring

theorem sumMapMul (l : List (Pt × Pt)) (c : ℚ) (f : Pt × Pt → ℚ) :
    (l.map (fun x => c * f x)).sum = c * (l.map f).sum := by
  induction l with
  | nil => simp
  | cons a t ih => simp only [List.map_cons, List.sum_cons, ih]; ring

theorem cyc_length (p : Poly) : (cyc p).length = p.length := by
  unfold cyc
  rw [List.length_append, List.length_drop, List.length_take]
  omega

theorem cyc_perm (p : Poly) : (cyc p).Perm p := by
  unfold cyc
  have h := @List.perm_append_comm _ (p.drop 1) (p.take 1)
  rw [List.take_append_drop] at h
  exact h

theorem edges_map (f : Pt → Pt) (p : Poly) :
    edges (p.map f) = (edges p).map (fun e => (f e.1, f e.2)) := by
  unfold edges cyc
  rw [← List.map_drop, ← List.map_take, ← List.map_append, List.zip_map]
  rfl

theorem edges_fst (p : Poly) : (edges p).map Prod.fst = p := by
  unfold edges
  apply List.map_fst_zip
  rw [cyc_length]

theorem edges_snd (p : Poly) : (edges p).map Prod.snd = cyc p := by
  unfold edges
  apply List.map_snd_zip
  rw [cyc_length]

theorem sum_edges_comp_fst (p : Poly) (f : Pt → ℚ) :
    ((edges p).map (fun e => f e.1)).sum = (p.map f).sum := by
  have h : ((edges p).map (fun e => f e.1)) = ((edges p).map Prod.fst).map f := by
    rw [List.map_map]; rfl
  rw [h, edges_fst]

theorem sum_edges_comp_snd (p : Poly) (f : Pt → ℚ) :
    ((edges p).map (fun e => f e.2)).sum = (p.map f).sum := by
  have h : ((edges p).map (fun e => f e.2)) = ((edges p).map Prod.snd).map f := by
    rw [List.map_map]; rfl
  rw [h, edges_snd]
  exact List.Perm.sum_eq (List.Perm.map f (cyc_perm p))

theorem shoelace_translate (v : Pt) (q : Poly) :
    shoelace (q.map (fun u => ((v.1 + u.1, v.2 + u.2) : Pt))) = shoelace q := by
  unfold shoelace
  rw [edges_map, List.map_map]
  have hptw : ((fun e => cross2 e.1 e.2) ∘ fun e : Pt × Pt =>
      (((v.1 + e.1.1, v.2 + e.1.2) : Pt), ((v.1 + e.2.1, v.2 + e.2.2) : Pt)))
      = fun e : Pt × Pt => cross2 e.1 e.2
        + (v.1 * (fun e : Pt × Pt => e.2.2 - e.1.2) e
          + v.2 * (fun e : Pt × Pt => e.1.1 - e.2.1) e) := by
    funext e
    simp only [Function.comp, cross2]
    ring
  rw [hptw, sumMapAdd, sumMapAdd, sumMapMul, sumMapMul]
  have h1 : ((edges q).map (fun e : Pt × Pt => e.2.2 - e.1.2)).sum = 0 := by
    have he : (fun e : Pt × Pt => e.2.2 - e.1.2) = fun e : Pt × Pt => e.2.2 + -e.1.2 := by
      funext e; ring
    rw [he, sumMapAdd]
    have hneg : ((edges q).map (fun e : Pt × Pt => -e.1.2)).sum
        = -((edges q).map (fun e : Pt × Pt => e.1.2)).sum := by
      rw [show (fun e : Pt × Pt => -e.1.2) = fun e : Pt × Pt => (-1 : ℚ) * e.1.2 by
        funext e; ring, sumMapMul]
      ring
    rw [hneg, sum_edges_comp_snd q (fun u => u.2), sum_edges_comp_fst q (fun u => u.2)]
    ring
  have h2 : ((edges q).map (fun e : Pt × Pt => e.1.1 - e.2.1)).sum = 0 := by
    have he : (fun e : Pt × Pt => e.1.1 - e.2.1) = fun e : Pt × Pt => e.1.1 + -e.2.1 := by
      funext e; ring
    rw [he, sumMapAdd]
    have hneg : ((edges q).map (fun e : Pt × Pt => -e.2.1)).sum
        = -((edges q).map (fun e : Pt × Pt => e.2.1)).sum := by
      rw [show (fun e : Pt × Pt => -e.2.1) = fun e : Pt × Pt => (-1 : ℚ) * e.2.1 by
        funext e; ring, sumMapMul]
      ring
    rw [hneg, sum_edges_comp_fst q (fun u => u.1), sum_edges_comp_snd q (fun u => u.1)]
    ring
  rw [h1, h2]
  ring

theorem cross2_linear (k : ℕ) (m : Bool) (a b : Pt) :
    cross2 (mirApply m (rotApply k a)) (mirApply m (rotApply k b))
      = (if m then (-1 : ℚ) else 1) * cross2 a b := by
  have h4 : k % 4 = 0 ∨ k % 4 = 1 ∨ k % 4 = 2 ∨ k % 4 = 3 := by omega
  unfold rotApply mirApply
  cases m <;> rcases h4 with h | h | h | h <;> rw [h] <;> simp [cross2] <;> ring

theorem shoelace_linear (k : ℕ) (m : Bool) (p : Poly) :
    shoelace (p.map (fun q => mirApply m (rotApply k q)))
      = (if m then (-1 : ℚ) else 1) * shoelace p := by
  unfold shoelace
  rw [edges_map, List.map_map]
  have hptw : ((fun e => cross2 e.1 e.2) ∘ fun e : Pt × Pt =>
      (mirApply m (rotApply k e.1), mirApply m (rotApply k e.2)))
      = fun e : Pt × Pt => (if m then (-1 : ℚ) else 1) * cross2 e.1 e.2 := by
    funext e
    simp only [Function.comp]
    exact cross2_linear k m e.1 e.2
  rw [hptw, sumMapMul]

theorem isoMap_split (k : ℕ) (m : Bool) (v : Pt) (p : Poly) :
    isoImage k m v p
      = (p.map (fun q => mirApply m (rotApply k q))).map
          (fun u => ((v.1 + u.1, v.2 + u.2) : Pt)) := by
  unfold isoImage isoMap
  rw [List.map_map]
  rfl

theorem polyArea_isoImage (k : ℕ) (m : Bool) (v : Pt) (p : Poly) :
    polyArea (isoImage k m v p) = polyArea p := by
  unfold polyArea
  rw [isoMap_split, shoelace_translate, shoelace_linear]
  cases m <;> simp

theorem polyArea_of_iso (q p : Poly) (h : IsIsoOf q p) : polyArea q = polyArea p := by
  obtain ⟨k, m, v, hq⟩ := h
  rw [hq]
  exact polyArea_isoImage k m v p

theorem translatePoly_isoImage (dx dy : ℚ) (k : ℕ) (m : Bool) (v : Pt) (p : Poly) :
    translatePoly dx dy (isoImage k m v p) = isoImage k m (v.1 + dx, v.2 + dy) p := by
  unfold translatePoly isoImage
  rw [List.map_map]
  congr 1
  funext q
  apply Prod.ext <;> simp only [Function.comp, isoMap] <;> ring

theorem IsIsoOf_translate (dx dy : ℚ) (q p : Poly) (h : IsIsoOf q p) :
    IsIsoOf (translatePoly dx dy q) p := by
  obtain ⟨k, m, v, hq⟩ := h
  exact ⟨k, m, (v.1 + dx, v.2 + dy), by rw [hq, translatePoly_isoImage]⟩

theorem rotatePoly_iso (ang : ℚ) (p : Poly)
    (hang : ang = 0 ∨ ang = 90 ∨ ang = 180 ∨ ang = 270) :
    ∃ k v, rotatePoly ang p = isoImage k false v p := by
  rcases hang with h | h | h | h <;> subst h
  · refine ⟨0, (0, 0), ?_⟩
    unfold rotatePoly isoImage
    congr 1
    funext q
    apply Prod.ext <;>
      simp [rotAbout, cosDeg, sinDeg, isoMap, mirApply, rotApply] <;> ring
  · refine ⟨1, ((centroid p).1 + (centroid p).2, (centroid p).2 - (centroid p).1), ?_⟩
    unfold rotatePoly isoImage
    congr 1
    funext q
    apply Prod.ext <;>
      simp [rotAbout, cosDeg, sinDeg, isoMap, mirApply, rotApply] <;> ring
  · refine ⟨2, (2 * (centroid p).1, 2 * (centroid p).2), ?_⟩
    unfold rotatePoly isoImage
    congr 1
    funext q
    apply Prod.ext <;>
      simp [rotAbout, cosDeg, sinDeg, isoMap, mirApply, rotApply] <;> ring
  · refine ⟨3, ((centroid p).1 - (centroid p).2, (centroid p).2 + (centroid p).1), ?_⟩
    unfold rotatePoly isoImage
    congr 1
    funext q
    apply Prod.ext <;>
      simp [rotAbout, cosDeg, sinDeg, isoMap, mirApply, rotApply] <;> ring

theorem mirrorPoly_isoImage (k : ℕ) (v : Pt) (p : Poly) :
    ∃ v2, mirrorPoly (isoImage k false v p) = isoImage k true v2 p := by
  refine ⟨(2 * (centroid (isoImage k false v p)).1 - v.1, v.2), ?_⟩
  unfold mirrorPoly isoImage
  rw [List.map_map]
  congr 1
  funext q
  apply Prod.ext <;> simp only [Function.comp, isoMap, mirApply, if_false, if_true] <;>
    simp <;> ring

end NestSys

namespace NestSys

/- ------------------------------------------------------------------
Stage 5b: the isometry is preserved through compaction, the position scans, the
orientation loop and the panel loop — every committed polygon is an allowed isometric
image of its panel's input polygon.
------------------------------------------------------------------ -/

theorem compactStep_iso (polys : List Poly) (bnds : List Rect) (cp base : Poly)
    (h : IsIsoOf cp base) : IsIsoOf (compactStep polys bnds cp).1 base := by
  rcases compactStep_shape polys bnds cp with h1 | ⟨h1, -⟩ | ⟨h1, -⟩ | ⟨h1, -⟩ <;> rw [h1]
  · exact h
  · exact IsIsoOf_translate _ _ _ _ h
  · exact IsIsoOf_translate _ _ _ _ h
  · exact IsIsoOf_translate _ _ _ _ (IsIsoOf_translate _ _ _ _ h)

theorem compactFuel_iso (polys : List Poly) (bnds : List Rect) (base : Poly) :
    ∀ (n : Nat) (cp : Poly), IsIsoOf cp base →
    IsIsoOf (compactFuel polys bnds n cp) base := by
  intro n
  induction n with
  | zero => intro cp h; exact h
  | succ n ih =>
    intro cp h
    show IsIsoOf (if (compactStep polys bnds cp).2 then
        compactFuel polys bnds n (compactStep polys bnds cp).1 else cp) base
    by_cases hm : (compactStep polys bnds cp).2 = true
    · rw [if_pos hm]
      exact ih _ (compactStep_iso polys bnds cp base h)
    · rw [if_neg hm]
      exact h

theorem compact_iso (polys : List Poly) (bnds : List Rect) (cp base : Poly)
    (h : IsIsoOf cp base) : IsIsoOf (compact polys bnds cp) base :=
  compactFuel_iso polys bnds base _ cp h

theorem scanY_iso (polys : List Poly) (bnds : List Rect) (vpoly base : Poly) (x : ℚ)
    (hv : IsIsoOf vpoly base) :
    ∀ (yc : List ℚ) (cp : Poly), scanY polys bnds vpoly x yc = some cp →
    IsIsoOf cp base := by
  intro yc
  induction yc with
  | nil => intro cp h; exact absurd h (by simp [scanY])
  | cons y rest ih =>
    intro cp h
    simp only [scanY] at h
    by_cases hc : anyConflict (translatePoly x y vpoly)
        (boundsOf (translatePoly x y vpoly)) polys bnds = true
    · rw [if_pos hc] at h
      exact ih cp h
    · rw [if_neg hc] at h
      cases h
      exact compact_iso polys bnds _ base (IsIsoOf_translate x y vpoly base hv)

theorem scanX_iso (doPrune : Bool) (cut : Option ℚ) (polys : List Poly)
    (bnds : List Rect) (vpoly base : Poly) (yc : List ℚ) (hv : IsIsoOf vpoly base) :
    ∀ (xs : List ℚ) (cp : Poly), scanX doPrune cut polys bnds vpoly yc xs = some cp →
    IsIsoOf cp base := by
  intro xs
  induction xs with
  | nil => intro cp h; exact absurd h (by simp [scanX])
  | cons x rest ih =>
    intro cp h
    simp only [scanX] at h
    by_cases hcut : (doPrune && cutLt cut x) = true
    · rw [if_pos hcut] at h
      exact absurd h (by simp)
    · rw [if_neg hcut] at h
      cases hy : scanY polys bnds vpoly x yc with
      | none => rw [hy] at h; exact ih cp h
      | some cp0 =>
        rw [hy] at h
        cases h
        exact scanY_iso polys bnds vpoly base x hv yc _ hy

theorem variantPoly_shape (basePoly : Poly) (v : ℚ × ℤ) :
    (variantPoly basePoly v).1
      = translatePoly
          (-(boundsOf (if v.2 = -1 then mirrorPoly (rotatePoly v.1 basePoly)
              else rotatePoly v.1 basePoly)).xmin)
          (-(boundsOf (if v.2 = -1 then mirrorPoly (rotatePoly v.1 basePoly)
              else rotatePoly v.1 basePoly)).ymin)
          (if v.2 = -1 then mirrorPoly (rotatePoly v.1 basePoly)
            else rotatePoly v.1 basePoly) := rfl

theorem variantPoly_iso (basePoly : Poly) (v : ℚ × ℤ) (hv : v ∈ variantsList) :
    IsIsoOf (variantPoly basePoly v).1 basePoly := by
  have hang : v.1 = 0 ∨ v.1 = 90 ∨ v.1 = 180 ∨ v.1 = 270 := by
    fin_cases hv <;> norm_num
  obtain ⟨k, v0, hrot⟩ := rotatePoly_iso v.1 basePoly hang
  rw [variantPoly_shape]
  split
  · rw [hrot]
    obtain ⟨v2, hmir⟩ := mirrorPoly_isoImage k v0 basePoly
    rw [hmir]
    exact IsIsoOf_translate _ _ _ _ ⟨k, true, v2, rfl⟩
  · rw [hrot]
    exact IsIsoOf_translate _ _ _ _ ⟨k, false, v0, rfl⟩

theorem variantFound_iso (doPrune : Bool) (maxLength fabricWidth : ℚ) (startY : ℤ)
    (basePoly : Poly) (polys : List Poly) (bnds : List Rect) (cut : Option ℚ)
    (v : ℚ × ℤ) (cp : Poly) (hv : v ∈ variantsList)
    (h : variantFound doPrune maxLength fabricWidth startY basePoly polys bnds cut v
      = some cp) :
    IsIsoOf cp basePoly := by
  unfold variantFound at h
  by_cases hsz : (decide (maxLength < (variantPoly basePoly v).2.1)
      || decide (fabricWidth < (variantPoly basePoly v).2.2)) = true
  · rw [if_pos hsz] at h
    exact absurd h (by simp)
  · rw [if_neg hsz] at h
    exact scanX_iso _ _ _ _ _ basePoly _ (variantPoly_iso basePoly v hv) _ _ h

theorem stepVariant_iso (doPrune : Bool) (maxLength fabricWidth : ℚ) (startY : ℤ)
    (basePoly : Poly) (polys : List Poly) (bnds : List Rect)
    (best : Option (ℚ × Cand)) (v : ℚ × ℤ) (hv : v ∈ variantsList)
    (hb : BestIso basePoly best) :
    BestIso basePoly
      (stepVariant doPrune maxLength fabricWidth startY basePoly polys bnds best v) := by
  unfold stepVariant
  cases hvf : variantFound doPrune maxLength fabricWidth startY basePoly polys bnds
      (best.map Prod.fst) v with
  | none => exact hb
  | some cp =>
    have hiso := variantFound_iso _ _ _ _ _ _ _ _ _ cp hv hvf
    cases best with
    | none =>
      intro sc c hsome
      simp only [Option.some.injEq, Prod.mk.injEq] at hsome
      obtain ⟨-, h2⟩ := hsome
      subst h2
      exact hiso
    | some pr =>
      show BestIso basePoly
        (if scoreOf (boundsOf cp) < pr.1
          then some (scoreOf (boundsOf cp), ⟨cp, boundsOf cp⟩) else some pr)
      by_cases hlt : scoreOf (boundsOf cp) < pr.1
      · rw [if_pos hlt]
        intro sc c hsome
        simp only [Option.some.injEq, Prod.mk.injEq] at hsome
        obtain ⟨-, h2⟩ := hsome
        subst h2
        exact hiso
      · rw [if_neg hlt]
        intro sc c hsome
        simp only [Option.some.injEq] at hsome
        exact hb sc c (by rw [hsome])

theorem foldVariants_iso (doPrune : Bool) (cancel : Nat → Bool)
    (maxLength fabricWidth : ℚ) (startY : ℤ) (basePoly : Poly) (polys : List Poly)
    (bnds : List Rect) : ∀ (vs : List (ℚ × ℤ)) (st : Option (ℚ × Cand) × Nat),
    (∀ v ∈ vs, v ∈ variantsList) → BestIso basePoly st.1 →
    BestIso basePoly
      (foldVariants doPrune cancel maxLength fabricWidth startY basePoly polys bnds
        vs st).1 := by
  intro vs
  induction vs with
  | nil => intro st _ h; exact h
  | cons v rest ih =>
    intro st hvs h
    show BestIso basePoly
      (if cancel st.2 then (st.1, st.2 + 1) else
        foldVariants doPrune cancel maxLength fabricWidth startY basePoly polys bnds rest
          (stepVariant doPrune maxLength fabricWidth startY basePoly polys bnds st.1 v,
            st.2 + 1)).1
    by_cases hc : cancel st.2 = true
    · rw [if_pos hc]; exact h
    · rw [if_neg hc]
      exact ih _ (fun u hu => hvs u (List.mem_cons_of_mem v hu))
        (stepVariant_iso _ _ _ _ _ _ _ _ _ (hvs v (List.mem_cons_self v rest)) h)

theorem runLoop_iso (doPrune : Bool) (cancel : Nat → Bool) (fabricWidth maxLength : ℚ) :
    ∀ (l : List Item) (st : RunSt),
    ∀ pl ∈ (runLoop doPrune cancel fabricWidth maxLength l st).placedItems,
    pl ∈ st.placedItems ∨
      ∃ it ∈ l, pl.style = it.style ∧ pl.id = it.id ∧ IsIsoOf pl.poly it.poly := by
  intro l
  induction l with
  | nil => intro st pl hpl; exact Or.inl hpl
  | cons it rest ih =>
    intro st pl hpl
    simp only [runLoop] at hpl
    by_cases hc : cancel st.polls = true
    · rw [if_pos hc] at hpl; exact Or.inl hpl
    · rw [if_neg hc] at hpl
      revert hpl
      cases hr : (foldVariants doPrune cancel maxLength fabricWidth
          (startYOf it.style fabricWidth) it.poly st.placedPolys st.placedBounds
          variantsList (none, st.polls + 1)).1 with
      | none =>
        intro hpl
        rcases ih _ pl hpl with h1 | ⟨it2, hm2, h2⟩
        · exact Or.inl h1
        · exact Or.inr ⟨it2, List.mem_cons_of_mem it hm2, h2⟩
      | some pr =>
        intro hpl
        rcases ih _ pl hpl with h1 | ⟨it2, hm2, h2⟩
        · rcases List.mem_append.mp h1 with h1a | h1b
          · exact Or.inl h1a
          · have hpe : pl = ⟨it.style, it.id, pr.2.poly⟩ := by simpa using h1b
            subst hpe
            have hbi := foldVariants_iso doPrune cancel maxLength fabricWidth
              (startYOf it.style fabricWidth) it.poly st.placedPolys st.placedBounds
              variantsList (none, st.polls + 1) (fun u hu => hu)
              (by intro sc c hsc; exact absurd hsc (by simp))
            exact Or.inr ⟨it, List.mem_cons_self it rest, rfl, rfl,
              hbi pr.1 pr.2 (by rw [hr])⟩
        · exact Or.inr ⟨it2, List.mem_cons_of_mem it hm2, h2⟩

theorem run_iso (patterns : List Item) (fabricWidth maxLength : ℚ)
    (cancel : Nat → Bool) (pl : Placed)
    (hpl : pl ∈ (run patterns fabricWidth maxLength cancel).placedItems) :
    ∃ it ∈ patterns, pl.style = it.style ∧ pl.id = it.id ∧ IsIsoOf pl.poly it.poly := by
  have h := runLoop_iso true cancel fabricWidth maxLength (sortPatterns patterns)
    ⟨[], [], [], [], 0⟩ pl hpl
  rcases h with h1 | ⟨it2, hm2, h2⟩
  · exact absurd h1 (by simp)
  · exact ⟨it2, (sortPatterns_perm patterns).mem_iff.mp hm2, h2⟩

end NestSys

namespace NestSys

/- ------------------------------------------------------------------
The lane scan order (claim C6): the y-candidate list the code builds equals the
amended spec-side description (grid from the floored half-width, with wrap).
------------------------------------------------------------------ -/

theorem pyRange_eq_nil (lo hi : ℤ) (h : hi ≤ lo) : pyRange lo hi = [] := by
  unfold pyRange
  rw [show (hi - lo).toNat = 0 by omega]
  rfl

theorem mem_pyRange (lo hi x : ℤ) : x ∈ pyRange lo hi ↔ lo ≤ x ∧ x < hi := by
  unfold pyRange
  simp only [List.mem_map, List.mem_range]
  constructor
  · rintro ⟨i, hi2, rfl⟩
    omega
  · rintro ⟨h1, h2⟩
    exact ⟨(x - lo).toNat, by omega, by omega⟩

theorem pyRange_append (lo mid hi : ℤ) (h1 : lo ≤ mid) (h2 : mid ≤ hi) :
    pyRange lo hi = pyRange lo mid ++ pyRange mid hi := by
  unfold pyRange
  rw [show (hi - lo).toNat = (mid - lo).toNat + (hi - mid).toNat by omega, List.range_add,
    List.map_append, List.map_map]
  congr 1
  have hfun : ((fun i : ℕ => lo + (i : ℤ)) ∘ fun x : ℕ => (mid - lo).toNat + x)
      = fun i : ℕ => mid + (i : ℤ) := by
    funext i
    simp only [Function.comp]
    omega
  rw [hfun]

theorem gridFilter (a B : ℤ) (ha : 0 ≤ a) :
    ((pyRange 0 B).map (fun (k : ℤ) => (k : ℚ) * 3)).filter
        (fun y => decide (3 * (a : ℚ) ≤ y))
      = (pyRange a B).map (fun (k : ℤ) => (k : ℚ) * 3) := by
  rw [List.map_filter]
  by_cases hab : a ≤ B
  · rw [pyRange_append 0 a B ha hab, List.filter_append]
    have hfst : (pyRange 0 a).filter
        ((fun y => decide (3 * (a : ℚ) ≤ y)) ∘ (fun (k : ℤ) => (k : ℚ) * 3)) = [] := by
      apply List.filter_eq_nil_iff.mpr
      intro k hk
      rw [mem_pyRange] at hk
      simp only [Function.comp_apply, decide_eq_true_eq]
      intro hle
      have hq : (a : ℚ) ≤ (k : ℚ) := by linarith
      have : a ≤ k := by exact_mod_cast hq
      omega
    have hsnd : (pyRange a B).filter
        ((fun y => decide (3 * (a : ℚ) ≤ y)) ∘ (fun (k : ℤ) => (k : ℚ) * 3)) = pyRange a B := by
      apply List.filter_eq_self.mpr
      intro k hk
      rw [mem_pyRange] at hk
      simp only [Function.comp_apply, decide_eq_true_eq]
      have hq : (a : ℚ) ≤ (k : ℚ) := by exact_mod_cast hk.1
      linarith
    rw [hfst, hsnd, List.nil_append]
  · rw [pyRange_eq_nil a B (by omega), List.map_nil]
    have hnil : (pyRange 0 B).filter
        ((fun y => decide (3 * (a : ℚ) ≤ y)) ∘ (fun (k : ℤ) => (k : ℚ) * 3)) = [] := by
      apply List.filter_eq_nil_iff.mpr
      intro k hk
      rw [mem_pyRange] at hk
      simp only [Function.comp_apply, decide_eq_true_eq]
      intro hle
      have hq : (a : ℚ) ≤ (k : ℚ) := by linarith
      have hik : a ≤ k := by exact_mod_cast hq
      omega
    rw [hnil, List.map_nil]

theorem gridUpTo_pred (a : ℤ) :
    gridUpTo (3 * (a : ℚ) - 3) = (pyRange 0 a).map (fun (k : ℤ) => (k : ℚ) * 3) := by
  unfold gridUpTo
  rw [show (3 * (a : ℚ) - 3) / 3 = ((a - 1 : ℤ) : ℚ) by push_cast; ring,
    Int.floor_intCast, show a - 1 + 1 = a by omega]

theorem specYc_true_eq (fabricWidth h : ℚ) :
    specYc true fabricWidth h = gridUpTo (fabricWidth - h) := rfl

theorem specYc_false_eq (fabricWidth h : ℚ) :
    specYc false fabricWidth h
      = (gridUpTo (fabricWidth - h)).filter
          (fun y => decide (3 * ((⌊(⌊fabricWidth / 2⌋ : ℚ) / 3⌋ : ℤ) : ℚ) ≤ y))
        ++ gridUpTo (3 * ((⌊(⌊fabricWidth / 2⌋ : ℚ) / 3⌋ : ℤ) : ℚ) - 3) := rfl

end NestSys

namespace NestSys

/- ------------------------------------------------------------------
The claims.
------------------------------------------------------------------ -/

/-- C6 (amended): for every style and sheet, the y scan order the code builds is the
3 cm grid in lane order — lane-A styles ascend from 0; every other style starts at the
largest grid multiple not exceeding the integer half-width `⌊width/2⌋` (not at `width/2`
itself), scans up to `width - h`, then wraps to the grid points below the start. Stated
as: `ycList` on the code's `startYOf` equals the amended `specYc` scan order. -/
theorem C6_lane_scan_grid (style : String) (fabricWidth h : ℚ)
    (hW : 0 ≤ fabricWidth) :
    ycList (startYOf style fabricWidth) fabricWidth h
      = specYc (isLaneA style) fabricWidth h := by
  by_cases hA : isLaneA style = true
  · have hs : startYOf style fabricWidth = 0 := by
      unfold startYOf
      unfold isLaneA at hA
      rw [if_pos hA]
    rw [hs, hA, specYc_true_eq]
    unfold ycList
    rw [if_neg (lt_irrefl 0)]
    rfl
  · have hA2 : isLaneA style = false := by rwa [Bool.not_eq_true] at hA
    have hs : startYOf style fabricWidth = ⌊fabricWidth / 2⌋ := by
      unfold startYOf
      unfold isLaneA at hA
      rw [if_neg hA]
    have hw2 : (0 : ℤ) ≤ ⌊fabricWidth / 2⌋ :=
      Int.floor_nonneg.mpr (div_nonneg hW (by norm_num))
    have ha0 : (0 : ℤ) ≤ ⌊(⌊fabricWidth / 2⌋ : ℚ) / 3⌋ :=
      Int.floor_nonneg.mpr (div_nonneg (by exact_mod_cast hw2) (by norm_num))
    rw [hs, hA2, specYc_false_eq,
      show gridUpTo (fabricWidth - h)
        = (pyRange 0 (⌊(fabricWidth - h) / 3⌋ + 1)).map (fun (k : ℤ) => (k : ℚ) * 3)
        from rfl,
      gridFilter _ _ ha0, gridUpTo_pred]
    by_cases hpos : (0 : ℤ) < ⌊fabricWidth / 2⌋
    · unfold ycList
      rw [if_pos hpos]
    · unfold ycList
      rw [if_neg hpos]
      have hz : ⌊fabricWidth / 2⌋ = 0 := by omega
      rw [hz, show (⌊(((0 : ℤ) : ℚ)) / 3⌋ : ℤ) = 0 by norm_num,
        pyRange_eq_nil 0 0 le_rfl, List.map_nil, List.append_nil]

/-- C3: for each panel, the orientation fold tracks exactly the minimum-score
surviving candidate — a tracked candidate's score is `xmax + 0.001 * ymin` of its final
bounding box, it is one of the compacted candidates the 8 variants produced, and its
score is minimal among them; the fold is empty exactly when no variant produced a
candidate. Moreover (absent cancellation) the panel loop commits the tracked candidate
to the sheet, and appends the panel to unplaced when there is none. -/
theorem C3_min_score_commit (doPrune : Bool) (fabricWidth maxLength : ℚ)
    (it : Item) (rest : List Item) (st : RunSt) :
    ((foldVariantsNC doPrune maxLength fabricWidth (startYOf it.style fabricWidth)
          it.poly st.placedPolys st.placedBounds variantsList none = none
        ↔ foldCands doPrune maxLength fabricWidth (startYOf it.style fabricWidth)
            it.poly st.placedPolys st.placedBounds variantsList none = [])
      ∧ (∀ sc c, foldVariantsNC doPrune maxLength fabricWidth
            (startYOf it.style fabricWidth) it.poly st.placedPolys st.placedBounds
            variantsList none = some (sc, c) →
          sc = scoreOf (boundsOf c.poly)
          ∧ c.poly ∈ foldCands doPrune maxLength fabricWidth
              (startYOf it.style fabricWidth) it.poly st.placedPolys st.placedBounds
              variantsList none
          ∧ ∀ q ∈ foldCands doPrune maxLength fabricWidth
              (startYOf it.style fabricWidth) it.poly st.placedPolys st.placedBounds
              variantsList none, sc ≤ scoreOf (boundsOf q)))
    ∧ runLoop doPrune noCancel fabricWidth maxLength (it :: rest) st
      = (match foldVariantsNC doPrune maxLength fabricWidth
            (startYOf it.style fabricWidth) it.poly st.placedPolys st.placedBounds
            variantsList none with
        | some pr =>
          runLoop doPrune noCancel fabricWidth maxLength rest
            { placedItems := st.placedItems ++ [⟨it.style, it.id, pr.2.poly⟩]
              unplacedItems := st.unplacedItems
              placedPolys := st.placedPolys ++ [pr.2.poly]
              placedBounds := st.placedBounds ++ [pr.2.cbounds]
              polls := st.polls + 1 + 8 }
        | none =>
          runLoop doPrune noCancel fabricWidth maxLength rest
            { st with unplacedItems := st.unplacedItems ++ [it]
                      polls := st.polls + 1 + 8 }) := by
  constructor
  · obtain ⟨h1, h2⟩ := foldNC_min doPrune maxLength fabricWidth
      (startYOf it.style fabricWidth) it.poly st.placedPolys st.placedBounds
      variantsList none (by intro sc c hc; exact absurd hc (by simp))
    constructor
    · constructor
      · intro hn
        exact (h1.mp hn).2
      · intro hcl
        exact h1.mpr ⟨rfl, hcl⟩
    · intro sc c hsc
      obtain ⟨ha, hb, hcands, -⟩ := h2 sc c hsc
      refine ⟨ha, ?_, hcands⟩
      rcases hb with hb | hb
      · exact absurd hb (by simp)
      · exact hb
  · have hnc : noCancel st.polls = false := rfl
    simp only [runLoop, hnc, Bool.false_eq_true, if_false]
    rw [foldVariants_all_false doPrune noCancel maxLength fabricWidth
      (startYOf it.style fabricWidth) it.poly st.placedPolys st.placedBounds
      variantsList none (st.polls + 1) (fun i h1 h2 => rfl)]
    cases hfe : foldVariantsNC doPrune maxLength fabricWidth
        (startYOf it.style fabricWidth) it.poly st.placedPolys st.placedBounds
        variantsList none with
    | some pr => rfl
    | none => rfl

/-- C1 refuted (a bug of the code): on a 3 cm wide, 4 cm long sheet with two 3-by-3
squares, the second square is committed with xmax = 6 > max_length = 4 — the x range
`range(int(math.ceil((max_length - w) / step_x)) + 1)` tries x = 3 although
x + w = 6 > 4, and nothing re-checks the right edge. -/
theorem C1_sheet_bound_violated :
    (∃ pl ∈ (run [itA, itB] 3 4 noCancel).placedItems, (boundsOf pl.poly).xmax = 6)
    ∧ ¬ (∀ pl ∈ (run [itA, itB] 3 4 noCancel).placedItems,
        (boundsOf pl.poly).xmax ≤ 4) := by
  decide

/-- C2, the original wording refuted: the two squares placed on the 3-by-4 sheet touch
along the edge x = 3, so their final polygons DO intersect under the exact geometric
test — only the conflict relation (which first requires strict bounding-box overlap)
fails for them. -/
theorem C2_touching_placements_intersect :
    (run [itA, itB] 3 4 noCancel).placedItems.length = 2
    ∧ ¬ List.Pairwise (fun a b => polyIntersects a.poly b.poly = false)
        (run [itA, itB] 3 4 noCancel).placedItems := by
  decide

/-- C5, the original wording refuted: the flag first reports true at poll index 1 —
an inner variant-loop poll, after the panel's head poll 0 returned false — and the
current panel is NOT left out of both lists: the variant loop breaks with no candidate
and the panel loop appends the panel to unplaced. -/
theorem C5_polled_panel_recorded :
    cancelAt1 0 = false
    ∧ cancelAt1 1 = true
    ∧ (run [itA] 3 9 cancelAt1).placedItems = []
    ∧ (run [itA] 3 9 cancelAt1).unplacedItems = [itA] := by
  decide

/-- C8, the original wording refuted: the zero-area three-point panel is committed to
the sheet, not sent to unplaced — no degeneracy check exists in the code. -/
theorem C8_degenerate_panel_placed :
    degenTri.length = 3
    ∧ polyArea degenTri = 0
    ∧ (run [itDegen] 5 9 noCancel).placedItems.map (fun e => e.id) = ["d"]
    ∧ (run [itDegen] 5 9 noCancel).unplacedItems = [] := by
  decide

/-- C2 (amended): the final placed polygons are pairwise conflict-free in the source's
sense — no pair has overlapping bounding boxes AND exactly intersecting polygons. The
stronger original wording (pairwise non-intersecting under the exact test alone) is
refuted by the counterexample: placements whose boxes touch edge to edge pass the
bounding-box pre-check and may share boundary points. -/
theorem C2_no_conflict_pairwise (patterns : List Item) (fabricWidth maxLength : ℚ)
    (cancel : Nat → Bool) :
    List.Pairwise (fun a b => conflictB b a = false)
      ((run patterns fabricWidth maxLength cancel).placedItems.map (fun e => e.poly)) := by
  obtain ⟨hP, -, hpw⟩ := runLoop_inv true cancel fabricWidth maxLength
    (sortPatterns patterns) ⟨[], [], [], [], 0⟩ ⟨rfl, rfl, List.Pairwise.nil⟩
  show List.Pairwise (fun a b => conflictB b a = false)
    ((runLoop true cancel fabricWidth maxLength (sortPatterns patterns)
      ⟨[], [], [], [], 0⟩).placedItems.map (fun e => e.poly))
  rw [← hP]
  exact hpw

/-- C4: absent cancellation, the ids of the final placed and unplaced lists together
are a permutation of the input ids — every input panel contributes exactly one entry
across the two lists. -/
theorem C4_partition (patterns : List Item) (fabricWidth maxLength : ℚ)
    (cancel : Nat → Bool) (hc : ∀ i, cancel i = false) :
    (((run patterns fabricWidth maxLength cancel).placedItems.map (fun e => e.id))
      ++ ((run patterns fabricWidth maxLength cancel).unplacedItems.map
          (fun e => e.id))).Perm
      (patterns.map (fun e => e.id)) := by
  have h := runLoop_partition true cancel fabricWidth maxLength (sortPatterns patterns)
    ⟨[], [], [], [], 0⟩ hc
  refine h.trans ?_
  simp only [List.map_nil, List.nil_append]
  exact (sortPatterns_perm patterns).map (fun e => e.id)

/-- C4 at a concrete input: two panels, cancellation never requested. -/
theorem C4_partition_witness :
    (∀ i, noCancel i = false)
    ∧ (((run [itA, itB] 3 9 noCancel).placedItems.map (fun e => e.id))
      ++ ((run [itA, itB] 3 9 noCancel).unplacedItems.map (fun e => e.id))).Perm
      ([itA, itB].map (fun e => e.id)) :=
  ⟨fun _ => rfl, C4_partition [itA, itB] 3 9 noCancel (fun _ => rfl)⟩

/-- C5 (amended): the truncation statement holds at head-poll boundaries. The source
polls once before each panel and once more at the top of each of the 8 variant
iterations, so panel k+1's head poll is poll index 9k; when the flag is false before it
and first true there, the run stops with placed and unplaced together holding exactly
the first k panels of the sorted order, the rest in neither list. The original claim's
"stops without processing the current panel" is refuted by the counterexample: a flag
turning true at an inner variant poll makes the loop append the current panel to
unplaced. -/
theorem C5_truncation (patterns : List Item) (fabricWidth maxLength : ℚ)
    (cancel : Nat → Bool) (k : Nat) (hk : k ≤ patterns.length)
    (hall : ∀ i, i < 9 * k → cancel i = false)
    (hcan : cancel (9 * k) = true) :
    (((run patterns fabricWidth maxLength cancel).placedItems.map (fun e => e.id))
      ++ ((run patterns fabricWidth maxLength cancel).unplacedItems.map
          (fun e => e.id))).Perm
      (((sortPatterns patterns).take k).map (fun e => e.id)) := by
  have hk2 : k ≤ (sortPatterns patterns).length := by
    rw [(sortPatterns_perm patterns).length_eq]
    exact hk
  have h := runLoop_truncation true cancel fabricWidth maxLength k
    (sortPatterns patterns) ⟨[], [], [], [], 0⟩ hk2
    (by intro i h1 h2; exact hall i (by simpa using h2))
    (by simpa using hcan)
  refine h.trans ?_
  simp

/-- C5 at a concrete input: the flag first turns true at poll 9 (the head poll of the
second panel), so exactly the first sorted panel is accounted for. -/
theorem C5_truncation_witness :
    (1 ≤ ([itA, itB] : List Item).length)
    ∧ (((run [itA, itB] 3 9 (fun n => decide (9 ≤ n))).placedItems.map (fun e => e.id))
      ++ ((run [itA, itB] 3 9 (fun n => decide (9 ≤ n))).unplacedItems.map
          (fun e => e.id))).Perm
      (((sortPatterns [itA, itB]).take 1).map (fun e => e.id)) :=
  ⟨by decide, C5_truncation [itA, itB] 3 9 (fun n => decide (9 ≤ n)) 1 (by decide)
    (by intro i h; simp only [decide_eq_false_iff_not]; omega) (by decide)⟩

/-- C7 (amended): pruning never yields a worse selection being reported as better —
whenever the pruned orientation fold (the source's `if x > best_score: break`) tracks a
selection, the unpruned fold tracks one of no larger score. The original claim — that
the pruned search selects the same placement — is refuted by the counterexample: a
pruned-away x position can gravity-compact to a smaller score. -/
theorem C7_prune_never_better (maxLength fabricWidth : ℚ) (startY : ℤ)
    (basePoly : Poly) (polys : List Poly) (bnds : List Rect) :
    OLe (foldVariantsNC false maxLength fabricWidth startY basePoly polys bnds
          variantsList none)
      (foldVariantsNC true maxLength fabricWidth startY basePoly polys bnds
          variantsList none) :=
  foldNC_prune_mono maxLength fabricWidth startY basePoly polys bnds variantsList
    none none (fun sc c h => absurd h (by simp))

/-- C9: for every nonempty candidate, the gravity-compaction loop reaches its fixed
point — after `compact` (which runs `measureOf cp + 1` passes), one further pass moves
nothing, i.e. the source's `while moved:` loop exits. -/
theorem C9_compaction_terminates (polys : List Poly) (bnds : List Rect) (cp : Poly)
    (hp : cp ≠ []) :
    (compactStep polys bnds (compact polys bnds cp)).2 = false := by
  unfold compact
  exact compactFuel_fix polys bnds (measureOf cp + 1) cp hp (by omega)

/-- C9 at a concrete input: a translated square on an empty sheet. -/
theorem C9_compaction_terminates_witness :
    (translatePoly 1 1 sq3 ≠ [])
    ∧ (compactStep [] [] (compact [] [] (translatePoly 1 1 sq3))).2 = false :=
  ⟨by decide, C9_compaction_terminates [] [] (translatePoly 1 1 sq3) (by decide)⟩

/-- C10: every entry of the final placed list carries the style and id of some input
panel, its polygon is an allowed isometric image of that panel's polygon (a rotation by
a multiple of 90°, an optional mirror, and a translation), and in particular its area
equals the input polygon's area. -/
theorem C10_placed_isometric (patterns : List Item) (fabricWidth maxLength : ℚ)
    (cancel : Nat → Bool) (pl : Placed)
    (hpl : pl ∈ (run patterns fabricWidth maxLength cancel).placedItems) :
    ∃ it ∈ patterns, pl.style = it.style ∧ pl.id = it.id
      ∧ IsIsoOf pl.poly it.poly ∧ polyArea pl.poly = polyArea it.poly := by
  obtain ⟨it, hm, hs, hid, hiso⟩ := run_iso patterns fabricWidth maxLength cancel pl hpl
  exact ⟨it, hm, hs, hid, hiso, polyArea_of_iso _ _ hiso⟩

/-- C8 (amended): a degenerate (zero-area) panel is not fatal to the run — the run
completes with that panel, and every other one, accounted for exactly once across the
placed and unplaced lists. The original claim's "ends up in the unplaced list, never
committed" is refuted by the counterexample: the code happily places a zero-area
polygon. -/
theorem C8_degenerate_not_fatal (patterns : List Item) (fabricWidth maxLength : ℚ)
    (it : Item) (hm : it ∈ patterns) (hz : polyArea it.poly = 0) :
    it.id ∈ ((run patterns fabricWidth maxLength noCancel).placedItems.map
        (fun e => e.id))
      ++ ((run patterns fabricWidth maxLength noCancel).unplacedItems.map
        (fun e => e.id))
    ∧ (((run patterns fabricWidth maxLength noCancel).placedItems.map (fun e => e.id))
      ++ ((run patterns fabricWidth maxLength noCancel).unplacedItems.map
          (fun e => e.id))).Perm
      (patterns.map (fun e => e.id)) := by
  have h := runLoop_partition true noCancel fabricWidth maxLength
    (sortPatterns patterns) ⟨[], [], [], [], 0⟩ (fun _ => rfl)
  have hperm : (((run patterns fabricWidth maxLength noCancel).placedItems.map
        (fun e => e.id))
      ++ ((run patterns fabricWidth maxLength noCancel).unplacedItems.map
          (fun e => e.id))).Perm
      (patterns.map (fun e => e.id)) := by
    refine h.trans ?_
    simp only [List.map_nil, List.nil_append]
    exact (sortPatterns_perm patterns).map (fun e => e.id)
  exact ⟨hperm.mem_iff.mpr (List.mem_map_of_mem (fun e => e.id) hm), hperm⟩

/-- C6, the original wording refuted: a non-lane-A panel's scan does not start at the
sheet half-height `width/2`. On a width-10 sheet with panel height 1, style "B" scans
y = 3, 6, 9 and then wraps to 0: the first y tried is 3, not 10/2 = 5, and 5 is never
tried at all. -/
theorem C6_half_height_start_refuted :
    isLaneA "B" = false
    ∧ startYOf "B" 10 = 5
    ∧ ycList (startYOf "B" 10) 10 1 = [3, 6, 9, 0]
    ∧ (ycList (startYOf "B" 10) 10 1).head? ≠ some ((10 : ℚ) / 2)
    ∧ ((10 : ℚ) / 2) ∉ ycList (startYOf "B" 10) 10 1 := by
  decide

/-- C6, the amended equality at a concrete input: width 10, panel height 1, style "B"
(and the hypothesis 0 ≤ 10 discharged). -/
theorem C6_lane_scan_grid_witness :
    (0 : ℚ) ≤ 10
    ∧ ycList (startYOf "B" 10) 10 1 = specYc (isLaneA "B") 10 1 :=
  ⟨by norm_num, C6_lane_scan_grid "B" 10 1 (by norm_num)⟩

/-- C10 at a concrete input: the single 3-by-3 square is placed as itself (rotation by
0, no mirror, zero translation), an isometric image of the input of equal area. -/
theorem C10_placed_isometric_witness :
    ((⟨"S_A", "a", sq3⟩ : Placed) ∈ (run [itA] 3 9 noCancel).placedItems)
    ∧ ∃ it ∈ [itA], (⟨"S_A", "a", sq3⟩ : Placed).style = it.style
      ∧ (⟨"S_A", "a", sq3⟩ : Placed).id = it.id
      ∧ IsIsoOf (⟨"S_A", "a", sq3⟩ : Placed).poly it.poly
      ∧ polyArea (⟨"S_A", "a", sq3⟩ : Placed).poly = polyArea it.poly :=
  ⟨by decide, C10_placed_isometric [itA] 3 9 noCancel ⟨"S_A", "a", sq3⟩ (by decide)⟩

set_option maxRecDepth 40000 in
set_option maxHeartbeats 4000000 in
/-- C7, the original wording refuted: searching the 2-by-1 rectangle panel (style "B",
so the scan starts at the y = 3 lane) on a 6 cm wide, 4 cm long sheet against the
overhang-and-slab state, the pruned orientation fold and the unpruned one select
different placements. The first orientation (lying, 2 wide) enters at x = 3, compacts
to [0, 2] x [1/2, 3/2] and sets best_score = 4001/2000; for the standing orientation
(1 wide) every x up to 3 is then pruned by `if x > best_score: break`, although from
x = 3 it would gravity-compact beneath the overhang to [0, 1] x [1/2, 5/2] with the
strictly better score 2001/2000 — so the unpruned fold selects that instead. -/
theorem C7_prune_changes_selection :
    foldVariantsNC true 4 6 (startYOf "B" 6) rShape obstaclePolys obstacleBounds
        variantsList none
      ≠ foldVariantsNC false 4 6 (startYOf "B" 6) rShape obstaclePolys obstacleBounds
        variantsList none := by
  decide

/-- C8 at a concrete input: the run on the single degenerate panel accounts for it. -/
theorem C8_degenerate_not_fatal_witness :
    (itDegen ∈ [itDegen] ∧ polyArea itDegen.poly = 0)
    ∧ (itDegen.id ∈ ((run [itDegen] 5 9 noCancel).placedItems.map (fun e => e.id))
        ++ ((run [itDegen] 5 9 noCancel).unplacedItems.map (fun e => e.id))
      ∧ (((run [itDegen] 5 9 noCancel).placedItems.map (fun e => e.id))
        ++ ((run [itDegen] 5 9 noCancel).unplacedItems.map (fun e => e.id))).Perm
        ([itDegen].map (fun e => e.id))) :=
  ⟨⟨by decide, by decide⟩, C8_degenerate_not_fatal [itDegen] 5 9 itDegen (by decide)
    (by decide)⟩

end NestSys
